import Mathlib

/-!
Shallow embedding of the MindFlow layout engine: the tree-layout module
(`getLayoutedElements` with its horizontal, radial and rank-based paths)
and the incremental placement helper `findNonOverlappingPosition`.

Modelling conventions:
* coordinates and sizes are rationals;
* JavaScript `Map`s become insertion-ordered association lists (`mapGet`,
  `mapSet`), matching JS `Map` semantics (updates keep the original slot,
  new keys append, iteration follows insertion order);
* `Array.prototype.sort` with a numeric comparator is a stable sort, so it
  is embedded as the (unique) stable insertion sort by the same key;
* the transcendental operations of the radial path (`Math.cos`, `Math.sin`,
  `Math.atan2`) and the constant `π` are abstract parameters, so a theorem
  quantified over them in particular covers the real trigonometric
  functions; the external `dagre.layout` call of the rank-based path is an
  abstract parameter assigning a point to every node id;
* unbounded recursions of the source (which can diverge on cyclic inputs)
  take explicit fuel and return `Option`; `none` models divergence.
-/

/- The Batteries rational operations are `@[irreducible]`, which blocks
`decide` on concrete layout runs; restore default reducibility for them. -/
attribute [local semireducible] Rat.mul Rat.add Rat.sub Rat.inv Rat.ofScientific

structure Pt where
  x : ℚ
  y : ℚ
deriving DecidableEq, Repr

structure Size where
  width : ℚ
  height : ℚ
deriving DecidableEq, Repr

/-- The four connector sides (the `Position` enum of the source). -/
inductive Side where
  | left
  | right
  | top
  | bottom
deriving DecidableEq, Repr

/-- A pair of handle sides: `target` for incoming, `source` for outgoing. -/
structure Handles where
  target : Side
  source : Side
deriving DecidableEq, Repr

/-- A graph node, with the fields of the source's `Node` objects that the
layout engine reads or writes: `measured` render size, explicit size and
level stored on `data`, the label, selection state, node type, and the
anchor sides. -/
structure GNode where
  id : String
  position : Pt
  measuredWidth : Option ℚ
  measuredHeight : Option ℚ
  dataWidth : Option ℚ
  dataHeight : Option ℚ
  dataLevel : Option ℤ
  dataLabel : String
  selected : Bool
  ntype : String
  sourcePosition : Option Side
  targetPosition : Option Side
deriving DecidableEq, Repr

structure GEdge where
  id : String
  source : String
  target : String
  sourceHandle : Option String
  targetHandle : Option String
deriving DecidableEq, Repr

/-- A node with every optional field absent: `mkNode i p` is the node with
id `i` at stored position `p`, no measured or stored size, level or anchor,
empty label, unselected, of type "custom". -/
def mkNode (i : String) (p : Pt) : GNode :=
  ⟨i, p, none, none, none, none, none, "", false, "custom", none, none⟩

/-- Lookup in an insertion-ordered association list (JS `Map.get`). -/
def mapGet {κ α : Type} [BEq κ] (m : List (κ × α)) (k : κ) : Option α :=
  (m.find? (fun p => p.1 == k)).map (·.2)

/-- Update in an insertion-ordered association list (JS `Map.set`): an
existing key keeps its slot, a new key is appended. -/
def mapSet {κ α : Type} [BEq κ] (m : List (κ × α)) (k : κ) (v : α) :
    List (κ × α) :=
  match m with
  | [] => [(k, v)]
  | (k', v') :: rest =>
    if k' == k then (k, v) :: rest else (k', v') :: mapSet rest k v

/-- Stable insertion sort by a rational key: the embedding of
`Array.prototype.sort` with comparator `(a, b) => key a - key b` (V8's sort
is stable, and a stable sort by a key is unique). -/
def insertByKey {α : Type} (key : α → ℚ) (a : α) : List α → List α
  | [] => [a]
  | b :: bs =>
    if key a ≤ key b then a :: b :: bs else b :: insertByKey key a bs

def sortByKey {α : Type} (key : α → ℚ) : List α → List α
  | [] => []
  | a :: as => insertByKey key a (sortByKey key as)

/-- `Math.round`: round half-up. -/
def jsRound (q : ℚ) : ℤ := ⌊q + 1/2⌋

/-- Truncation toward zero, used by the JS `%` operator. -/
def ratTrunc (q : ℚ) : ℤ := if 0 ≤ q then ⌊q⌋ else ⌈q⌉

/-- The JS `%` operator on numbers (remainder with the dividend's sign). -/
def jsMod (a b : ℚ) : ℚ := a - b * ratTrunc (a / b)

/-! ### Shared graph utilities (src layout module, top of file) -/

def nodeWidth : ℚ := 250
def nodeHeight : ℚ := 80

/-- `findRootNodes`: all nodes with no incoming edge, else the first node,
else nothing. -/
def findRootNodes (nodes : List GNode) (edges : List GEdge) : List GNode :=
  let targetIds := edges.map (·.target)
  let roots := nodes.filter (fun n => !targetIds.contains n.id)
  if roots.length > 0 then roots
  else
    match nodes with
    | [] => []
    | n :: _ => [n]

/-- `buildTree`: children adjacency (every node starts with `[]`; an edge
whose source is a known key appends its target) and the parent map (last
edge wins). -/
def buildTree (nodes : List GNode) (edges : List GEdge) :
    List (String × List String) × List (String × String) :=
  let children0 := nodes.foldl (fun m n => mapSet m n.id []) []
  edges.foldl
    (fun st e =>
      let children :=
        match mapGet st.1 e.source with
        | some kids => mapSet st.1 e.source (kids ++ [e.target])
        | none => st.1
      (children, mapSet st.2 e.target e.source))
    (children0, [])

/-- Padded axis-aligned bounding-box overlap test (`nodesOverlap`). -/
def nodesOverlap (pos1 : Pt) (size1 : Size) (pos2 : Pt) (size2 : Size)
    (padding : ℚ) : Prop :=
  ¬(pos1.x + size1.width + padding ≤ pos2.x ∨
    pos2.x + size2.width + padding ≤ pos1.x ∨
    pos1.y + size1.height + padding ≤ pos2.y ∨
    pos2.y + size2.height + padding ≤ pos1.y)

instance (p1 : Pt) (s1 : Size) (p2 : Pt) (s2 : Size) (pad : ℚ) :
    Decidable (nodesOverlap p1 s1 p2 s2 pad) := by
  unfold nodesOverlap; infer_instance

/-! ### Radial layout (src layout module, `radialLayout`)

Abstract parameters: `tcos tsin : ℚ → ℚ` for `Math.cos`/`Math.sin`,
`at2 : ℚ → ℚ → ℚ` for `Math.atan2`, `pi : ℚ` for `Math.PI`. -/

/-- `getHandlePositionFromAngle`: quantize an angle into the four 90°
sectors. -/
def getHandlePositionFromAngle (pi angle : ℚ) : Handles :=
  let normalizedAngle := jsMod (jsMod angle (2 * pi) + 2 * pi) (2 * pi)
  if 7 * pi / 4 ≤ normalizedAngle ∨ normalizedAngle < pi / 4 then
    ⟨Side.left, Side.right⟩
  else if pi / 4 ≤ normalizedAngle ∧ normalizedAngle < 3 * pi / 4 then
    ⟨Side.top, Side.bottom⟩
  else if 3 * pi / 4 ≤ normalizedAngle ∧ normalizedAngle < 5 * pi / 4 then
    ⟨Side.right, Side.left⟩
  else
    ⟨Side.bottom, Side.top⟩

/-- The radial path's `getNodeSize`: measured size, else the fixed
defaults. -/
def radialGetNodeSize (nodes : List GNode) (nodeId : String) : Size :=
  match nodes.find? (fun n => n.id == nodeId) with
  | none => ⟨nodeWidth, nodeHeight⟩
  | some node =>
    ⟨node.measuredWidth.getD nodeWidth, node.measuredHeight.getD nodeHeight⟩

/-- Half of a box's larger dimension (`Math.max(width, height) / 2`). -/
def halfDiagonal (s : Size) : ℚ := max s.width s.height / 2

/-- The `maxChildHalfDiagonal` accumulation loop of `positionChildren`. -/
def maxChildHalfDiagonal (nodes : List GNode) (kids : List String) : ℚ :=
  kids.foldl
    (fun m childId =>
      let childHalf := halfDiagonal (radialGetNodeSize nodes childId)
      if childHalf > m then childHalf else m)
    0

/-- The ring radius `positionChildren` uses for the children of a parent:
the level-based radius `350 + level * 280`, raised to
`parentHalfDiagonal + maxChildHalfDiagonal + 80` when smaller. -/
def radialChildRadius (nodes : List GNode) (levels : List (String × ℤ))
    (parentId : String) (kids : List String) : ℚ :=
  let radius : ℚ := 350 + ((mapGet levels parentId).getD 0 : ℤ) * 280
  let parentHalfDiagonal := halfDiagonal (radialGetNodeSize nodes parentId)
  let minRequiredRadius :=
    parentHalfDiagonal + maxChildHalfDiagonal nodes kids + 80
  if radius < minRequiredRadius then minRequiredRadius else radius

/-- Where `positionChildren` puts a child: on the circle of the given
radius around the parent's center, at the given angle. -/
def radialPlacePoint (tcos tsin : ℚ → ℚ) (parentPos : Pt)
    (angle radius : ℚ) : Pt :=
  ⟨parentPos.x + tcos angle * radius, parentPos.y + tsin angle * radius⟩

/-- One unfolding of `calculateLevels`, with the recursive occurrence
abstracted (`rec`), so that the fueled recursion below is structural on
the fuel and evaluates in the kernel. -/
def calculateLevelsStep (children : List (String × List String))
    (rec : String → ℤ → List String × List (String × ℤ) →
      Option (List String × List (String × ℤ)))
    (nodeId : String) (level : ℤ) (st : List String × List (String × ℤ)) :
    Option (List String × List (String × ℤ)) :=
  if st.1.contains nodeId then some st
  else
    let visited := st.1 ++ [nodeId]
    let levels := mapSet st.2 nodeId level
    let kids := (mapGet children nodeId).getD []
    kids.foldlM (fun st' child => rec child (level + 1) st') (visited, levels)

/-- `calculateLevels`: depth-first level assignment guarded by the global
visited set (a revisited node is skipped). Fuel models the recursion
depth; `none` is divergence (which the guard in fact prevents). -/
def calculateLevels (children : List (String × List String)) :
    Nat → String → ℤ → List String × List (String × ℤ) →
    Option (List String × List (String × ℤ))
  | 0 => fun _ _ _ => none
  | fuel + 1 => calculateLevelsStep children (calculateLevels children fuel)

/-- `positionChildren`: distribute the children of a parent over its
angular span, place each on the ring, assign its handles from the angle
back to the parent, and recurse into its own span. The source recursion
has no visited guard, so it diverges on cycles reachable from the root:
fuel models that, `none` is divergence. Returns the updated positions and
handles together with the list of child angles. -/
def positionChildrenStep (tcos tsin : ℚ → ℚ) (at2 : ℚ → ℚ → ℚ) (pi : ℚ)
    (nodes : List GNode) (children : List (String × List String))
    (levels : List (String × ℤ))
    (rec : String → ℚ → ℚ →
      List (String × Pt) × List (String × Handles) →
      Option ((List (String × Pt) × List (String × Handles)) × List ℚ))
    (parentId : String) (startAngle endAngle : ℚ)
    (st : List (String × Pt) × List (String × Handles)) :
    Option ((List (String × Pt) × List (String × Handles)) × List ℚ) :=
  let nodeChildren := (mapGet children parentId).getD []
  if nodeChildren = [] then some (st, [])
  else
    let radius := radialChildRadius nodes levels parentId nodeChildren
    let parentPos := (mapGet st.1 parentId).getD ⟨0, 0⟩
    let availableAngle := endAngle - startAngle
    let count : ℚ := nodeChildren.length
    let angleStep := max (availableAngle / count) (3 / 10)
    nodeChildren.enum.foldlM
      (fun acc idxChild =>
        let index : ℚ := idxChild.1
        let childId := idxChild.2
        let angle := startAngle + angleStep * (index + 1 / 2)
        let p := radialPlacePoint tcos tsin parentPos angle radius
        let positions := mapSet acc.1.1 childId p
        let angleToParent := at2 (parentPos.y - p.y) (parentPos.x - p.x)
        let handles :=
          mapSet acc.1.2 childId (getHandlePositionFromAngle pi angleToParent)
        let childAngleSpan := min (angleStep * (9 / 10)) (availableAngle / count)
        (rec childId (angle - childAngleSpan / 2) (angle + childAngleSpan / 2)
            (positions, handles)).map
          (fun r => (r.1, acc.2 ++ [angle])))
      (st, [])

def positionChildren (tcos tsin : ℚ → ℚ) (at2 : ℚ → ℚ → ℚ) (pi : ℚ)
    (nodes : List GNode) (children : List (String × List String))
    (levels : List (String × ℤ)) :
    Nat → String → ℚ → ℚ → List (String × Pt) × List (String × Handles) →
    Option ((List (String × Pt) × List (String × Handles)) × List ℚ)
  | 0 => fun _ _ _ _ => none
  | fuel + 1 =>
    positionChildrenStep tcos tsin at2 pi nodes children levels
      (positionChildren tcos tsin at2 pi nodes children levels fuel)

/-- The traversal state of `radialLayout`: positions and handles keyed by
node id, and the global visited set. -/
structure RState where
  positions : List (String × Pt)
  handles : List (String × Handles)
  visited : List String
deriving DecidableEq, Repr

/-- `layoutTree`: one root's radial traversal — level computation, root
placement, child placement, and the root's own handle from the average
child angle. -/
def layoutTree (tcos tsin : ℚ → ℚ) (at2 : ℚ → ℚ → ℚ) (pi : ℚ)
    (nodes : List GNode) (children : List (String × List String))
    (rootId : String) (offsetX offsetY : ℚ) (st : RState) : Option RState := do
  let (visited, levels) ←
    calculateLevels children (nodes.length + 1) rootId 0 (st.visited, [])
  let positions := mapSet st.positions rootId ⟨offsetX, offsetY⟩
  let ((positions, handles), rootChildAngles) ←
    positionChildren tcos tsin at2 pi nodes children levels (nodes.length + 1)
      rootId 0 (2 * pi) (positions, st.handles)
  let handles :=
    if rootChildAngles ≠ [] then
      let sumX := rootChildAngles.foldl (fun s a => s + tcos a) 0
      let sumY := rootChildAngles.foldl (fun s a => s + tsin a) 0
      mapSet handles rootId (getHandlePositionFromAngle pi (at2 sumY sumX))
    else
      mapSet handles rootId ⟨Side.left, Side.right⟩
  pure ⟨positions, handles, visited⟩

/-- The per-edge horizontal nudge loop of the radial layout: while the
child's padded box overlaps the parent's (padding 40) and fewer than
`fuel` (20) iterations have run, shift the child's x by 40 in the fixed
direction. -/
def radialNudgeLoop (parentSize childSize : Size) (px py cy : ℚ)
    (direction : ℚ) : Nat → ℚ → ℚ
  | 0, cx => cx
  | fuel + 1, cx =>
    let parentLeft := px - parentSize.width / 2
    let parentRight := px + parentSize.width / 2
    let parentTop := py - parentSize.height / 2
    let parentBottom := py + parentSize.height / 2
    let childLeft := cx - childSize.width / 2
    let childRight := cx + childSize.width / 2
    let childTop := cy - childSize.height / 2
    let childBottom := cy + childSize.height / 2
    let overlapsParent :=
      ¬(childRight + 40 ≤ parentLeft ∨ parentRight ≤ childLeft - 40 ∨
        childBottom + 40 ≤ parentTop ∨ parentBottom ≤ childTop - 40)
    if overlapsParent then
      radialNudgeLoop parentSize childSize px py cy direction fuel
        (cx + direction * 40)
    else cx

/-- The radial parent/child nudge pass: for each edge in order, if both
endpoints have positions, push the child horizontally away from the parent
until their padded boxes no longer overlap (at most 20 steps), and store
the child's resulting position. -/
def radialNudge (nodes : List GNode) (edges : List GEdge)
    (positions : List (String × Pt)) : List (String × Pt) :=
  edges.foldl
    (fun positions edge =>
      match mapGet positions edge.source, mapGet positions edge.target with
      | some parentPos, some childPos =>
        let parentSize := radialGetNodeSize nodes edge.source
        let childSize := radialGetNodeSize nodes edge.target
        let cx := childPos.x
        let cy := childPos.y
        let px := parentPos.x
        let py := parentPos.y
        let direction : ℚ := if cx ≥ px then 1 else -1
        let cx' := radialNudgeLoop parentSize childSize px py cy direction 20 cx
        mapSet positions edge.target ⟨cx', cy⟩
      | _, _ => positions)
    positions

/-- The radial orphan pass: every node the traversal never visited gets
the next fallback slot `(currentOffset + 600, 600)` and default handles,
advancing the offset by 400. -/
def radialOrphans (nodes : List GNode) (visited : List String)
    (positions : List (String × Pt)) (handles : List (String × Handles))
    (currentOffset : ℚ) :
    List (String × Pt) × List (String × Handles) × ℚ :=
  nodes.foldl
    (fun acc node =>
      if !visited.contains node.id then
        (mapSet acc.1 node.id ⟨acc.2.2 + 600, 600⟩,
         mapSet acc.2.1 node.id ⟨Side.left, Side.right⟩,
         acc.2.2 + 400)
      else acc)
    (positions, handles, currentOffset)

/-- The radial output projection: each input node, with its handles and
its center position converted to a top-left position using its measured
(or default) size. -/
def radialProject (nodes : List GNode) (positions : List (String × Pt))
    (handles : List (String × Handles)) : List GNode :=
  nodes.map (fun node =>
    let pos := (mapGet positions node.id).getD ⟨0, 0⟩
    let h := (mapGet handles node.id).getD ⟨Side.left, Side.right⟩
    let nodeW := node.measuredWidth.getD nodeWidth
    let nodeH := node.measuredHeight.getD nodeHeight
    { node with
        targetPosition := some h.target
        sourcePosition := some h.source
        position := ⟨pos.x - nodeW / 2, pos.y - nodeH / 2⟩ })

/-- The per-root traversal fold of `radialLayout`: lay out each detected
root's tree, offsetting the roots 1200 apart, threading the global state
and the running offset. -/
def radialTraversal (tcos tsin : ℚ → ℚ) (at2 : ℚ → ℚ → ℚ) (pi : ℚ)
    (nodes : List GNode) (edges : List GEdge) : Option (RState × ℚ) :=
  let roots := findRootNodes nodes edges
  let children := (buildTree nodes edges).1
  roots.foldlM
    (fun acc root => do
      let st' ←
        layoutTree tcos tsin at2 pi nodes children root.id (acc.2 + 600) 600
          acc.1
      pure (st', acc.2 + 1200))
    ((⟨[], [], []⟩ : RState), (0 : ℚ))

/-- `radialLayout`: root detection, per-root radial traversal (roots 1200
apart), the parent/child nudge pass, the orphan pass, and the output
projection. `none` models the divergence of the unguarded placement
recursion on cyclic inputs. -/
def radialLayout (tcos tsin : ℚ → ℚ) (at2 : ℚ → ℚ → ℚ) (pi : ℚ)
    (nodes : List GNode) (edges : List GEdge) : Option (List GNode) :=
  if nodes = [] then some nodes
  else do
    let stOff ← radialTraversal tcos tsin at2 pi nodes edges
    let positions := radialNudge nodes edges stOff.1.positions
    let fin :=
      radialOrphans nodes stOff.1.visited positions stOff.1.handles stOff.2
    pure (radialProject nodes fin.1 fin.2.1)

/-! ### Horizontal layout (src layout module, `horizontalLayout`) -/

structure Bounds where
  x : ℚ
  y : ℚ
  width : ℚ
  height : ℚ
deriving DecidableEq, Repr

/-- The horizontal path's `getNodeSize`: measured size, else the size
stored on the node's `data`, else the fixed defaults; looked up through
the id → node map. -/
def horizGetNodeSize (nodeMap : List (String × GNode)) (nodeId : String) :
    Size :=
  match mapGet nodeMap nodeId with
  | none => ⟨nodeWidth, nodeHeight⟩
  | some node =>
    ⟨node.measuredWidth.getD (node.dataWidth.getD nodeWidth),
     node.measuredHeight.getD (node.dataHeight.getD nodeHeight)⟩

/-- `getNodeBounds`: top-left corner and size of a positioned node
(positions store centers). -/
def getNodeBounds (nodeMap : List (String × GNode))
    (positions : List (String × Pt)) (nodeId : String) : Option Bounds :=
  (mapGet positions nodeId).map (fun pos =>
    let size := horizGetNodeSize nodeMap nodeId
    ⟨pos.x - size.width / 2, pos.y - size.height / 2, size.width, size.height⟩)

/-- `checkOverlap`: padded overlap (padding 25) of two positioned nodes;
false when either has no position. -/
def checkOverlap (nodeMap : List (String × GNode))
    (positions : List (String × Pt)) (nodeId1 nodeId2 : String) : Bool :=
  match getNodeBounds nodeMap positions nodeId1,
      getNodeBounds nodeMap positions nodeId2 with
  | some b1, some b2 =>
    decide (nodesOverlap ⟨b1.x, b1.y⟩ ⟨b1.width, b1.height⟩ ⟨b2.x, b2.y⟩
      ⟨b2.width, b2.height⟩ 25)
  | _, _ => false

/-- `moveNodeWithDirectChildren`: translate a node and only its direct
children vertically. -/
def moveNodeWithDirectChildren (children : List (String × List String))
    (positions : List (String × Pt)) (nodeId : String) (deltaY : ℚ) :
    List (String × Pt) :=
  match mapGet positions nodeId with
  | none => positions
  | some currentPos =>
    let positions := mapSet positions nodeId ⟨currentPos.x, currentPos.y + deltaY⟩
    let kids := (mapGet children nodeId).getD []
    kids.foldl
      (fun ps kidId =>
        match mapGet ps kidId with
        | some kidPos => mapSet ps kidId ⟨kidPos.x, kidPos.y + deltaY⟩
        | none => ps)
      positions

/-- `calcSubtreeHeight`: a leaf's own height, or the children's subtree
heights plus 30 spacing between consecutive children, floored by the
node's own height. The source recursion has no cycle guard; fuel models
that, `none` is divergence. -/
def calcSubtreeHeightStep (nodeMap : List (String × GNode))
    (children : List (String × List String)) (rec : String → Option ℚ)
    (nodeId : String) : Option ℚ :=
  let kids := (mapGet children nodeId).getD []
  let nodeSize := horizGetNodeSize nodeMap nodeId
  if kids = [] then some nodeSize.height
  else
    (kids.mapM rec).map
      (fun heights =>
        let totalHeight :=
          heights.foldl (· + ·) 0 + ((kids.length : ℚ) - 1) * 30
        max nodeSize.height totalHeight)

def calcSubtreeHeight (nodeMap : List (String × GNode))
    (children : List (String × List String)) : Nat → String → Option ℚ
  | 0 => fun _ => none
  | fuel + 1 =>
    calcSubtreeHeightStep nodeMap children (calcSubtreeHeight nodeMap children fuel)

/-- `initialLayout`: place a node at `(x, parentY)` with the direction's
handles, then spread its children from the parent's center, each centered
in its `calcSubtreeHeight` slice. Unguarded recursion: fuel, `none` is
divergence. `cfuel` is the fuel handed to `calcSubtreeHeight` calls. -/
def initialLayoutStep (nodeMap : List (String × GNode))
    (children : List (String × List String)) (cfuel : Nat)
    (rec : String → ℚ → ℚ → Bool →
      List (String × Pt) × List (String × Handles) →
      Option ((List (String × Pt) × List (String × Handles)) × ℚ))
    (nodeId : String) (x parentY : ℚ) (dirLeft : Bool)
    (st : List (String × Pt) × List (String × Handles)) :
    Option ((List (String × Pt) × List (String × Handles)) × ℚ) :=
  let kids := (mapGet children nodeId).getD []
  let nodeSize := horizGetNodeSize nodeMap nodeId
  let positions := mapSet st.1 nodeId ⟨x, parentY⟩
  let handles :=
    mapSet st.2 nodeId
      (if dirLeft then ⟨Side.right, Side.left⟩ else ⟨Side.left, Side.right⟩)
  if kids = [] then some ((positions, handles), nodeSize.height)
  else do
    let childHeights ← kids.mapM (calcSubtreeHeight nodeMap children cfuel)
    let totalChildrenHeight :=
      childHeights.foldl (· + ·) 0 +
        (if kids.length > 1 then ((kids.length : ℚ) - 1) * 30 else 0)
    let nextX := x + (if dirLeft then (-350 : ℚ) else 350)
    let startY := parentY - totalChildrenHeight / 2
    let r ←
      (kids.zip childHeights).foldlM
        (fun acc kidH => do
          let childCenterY := acc.2 + kidH.2 / 2
          let r ← rec kidH.1 nextX childCenterY dirLeft acc.1
          pure (r.1, acc.2 + kidH.2 + 30))
        ((positions, handles), startY)
    pure (r.1, max nodeSize.height totalChildrenHeight)

def initialLayout (nodeMap : List (String × GNode))
    (children : List (String × List String)) (cfuel : Nat) :
    Nat → String → ℚ → ℚ → Bool →
    List (String × Pt) × List (String × Handles) →
    Option ((List (String × Pt) × List (String × Handles)) × ℚ)
  | 0 => fun _ _ _ _ _ => none
  | fuel + 1 =>
    initialLayoutStep nodeMap children cfuel
      (initialLayout nodeMap children cfuel fuel)

/-- The sibling pass of one `resolveOverlaps` iteration: walk the sorted
sibling list by index; on overlap move the lower sibling (and its direct
children) down by the needed space plus 5 and re-sort before continuing.
`steps` counts the remaining index positions (the source's
`for (let i = 0; i < siblingIds.length - 1; i++)`). -/
def sibPairLoop (nodeMap : List (String × GNode))
    (children : List (String × List String)) :
    Nat → Nat → List String → List (String × Pt) → Bool →
    List (String × Pt) × Bool
  | 0, _, _, ps, fl => (ps, fl)
  | steps + 1, i, sibs, ps, fl =>
    let id1 := sibs.getD i ""
    let id2 := sibs.getD (i + 1) ""
    if checkOverlap nodeMap ps id1 id2 then
      let b1 := (getNodeBounds nodeMap ps id1).getD ⟨0, 0, 0, 0⟩
      let b2 := (getNodeBounds nodeMap ps id2).getD ⟨0, 0, 0, 0⟩
      let neededSpace := b1.y + b1.height + 25 - b2.y
      if neededSpace > 0 then
        let ps := moveNodeWithDirectChildren children ps id2 (neededSpace + 5)
        let sibs := sortByKey (fun nid => ((mapGet ps nid).getD ⟨0, 0⟩).y) sibs
        sibPairLoop nodeMap children steps (i + 1) sibs ps true
      else sibPairLoop nodeMap children steps (i + 1) sibs ps true
    else sibPairLoop nodeMap children steps (i + 1) sibs ps fl

/-- The column pass of one `resolveOverlaps` iteration: walk the sorted
column list by index, skipping parent/child and sibling pairs; on overlap
move the lower node (and its direct children) down (no re-sort). -/
def colPairLoop (nodeMap : List (String × GNode))
    (children : List (String × List String))
    (parentMap : List (String × String)) :
    Nat → Nat → List String → List (String × Pt) → Bool →
    List (String × Pt) × Bool
  | 0, _, _, ps, fl => (ps, fl)
  | steps + 1, i, ids, ps, fl =>
    let id1 := ids.getD i ""
    let id2 := ids.getD (i + 1) ""
    if mapGet parentMap id2 = some id1 ∨ mapGet parentMap id1 = some id2 then
      colPairLoop nodeMap children parentMap steps (i + 1) ids ps fl
    else if (match mapGet parentMap id1 with
        | some p1 => mapGet parentMap id2 == some p1
        | none => false) then
      colPairLoop nodeMap children parentMap steps (i + 1) ids ps fl
    else if checkOverlap nodeMap ps id1 id2 then
      let b1 := (getNodeBounds nodeMap ps id1).getD ⟨0, 0, 0, 0⟩
      let b2 := (getNodeBounds nodeMap ps id2).getD ⟨0, 0, 0, 0⟩
      let neededSpace := b1.y + b1.height + 25 - b2.y
      if neededSpace > 0 then
        let ps := moveNodeWithDirectChildren children ps id2 (neededSpace + 5)
        colPairLoop nodeMap children parentMap steps (i + 1) ids ps true
      else colPairLoop nodeMap children parentMap steps (i + 1) ids ps true
    else colPairLoop nodeMap children parentMap steps (i + 1) ids ps fl

/-- One iteration of `resolveOverlaps`: group positioned nodes by parent
(map iteration in insertion order), run the sibling pass per group sorted
by y, then group by rounded x column and run the column pass per column
sorted by y. Returns the new positions and whether any overlap was seen. -/
def resolveIter (nodeMap : List (String × GNode))
    (children : List (String × List String))
    (parentMap : List (String × String)) (positions : List (String × Pt)) :
    List (String × Pt) × Bool :=
  let siblingsByParent : List (String × List String) :=
    positions.foldl
      (fun m entry =>
        match mapGet parentMap entry.1 with
        | some parentId =>
          match mapGet m parentId with
          | some l => mapSet m parentId (l ++ [entry.1])
          | none => mapSet m parentId [entry.1]
        | none => m)
      []
  let (positions, flag) :=
    siblingsByParent.foldl
      (fun acc group =>
        if group.2.length < 2 then acc
        else
          let sorted :=
            sortByKey (fun nid => ((mapGet acc.1 nid).getD ⟨0, 0⟩).y) group.2
          sibPairLoop nodeMap children (sorted.length - 1) 0 sorted acc.1 acc.2)
      (positions, false)
  let nodesByColumn : List (ℤ × List String) :=
    positions.foldl
      (fun m entry =>
        let colX := jsRound (entry.2.x / 10) * 10
        match mapGet m colX with
        | some l => mapSet m colX (l ++ [entry.1])
        | none => mapSet m colX [entry.1])
      []
  nodesByColumn.foldl
    (fun acc col =>
      if col.2.length < 2 then acc
      else
        let sorted :=
          sortByKey (fun nid => ((mapGet acc.1 nid).getD ⟨0, 0⟩).y) col.2
        colPairLoop nodeMap children parentMap (sorted.length - 1) 0 sorted
          acc.1 acc.2)
    (positions, flag)

/-- `resolveOverlaps`: repeat `resolveIter` while it reports an overlap,
at most 50 iterations (the source's `while (hasOverlap && iteration < 50)`
with `hasOverlap` initially true). -/
def resolveLoop (nodeMap : List (String × GNode))
    (children : List (String × List String))
    (parentMap : List (String × String)) :
    Nat → List (String × Pt) → List (String × Pt)
  | 0, ps => ps
  | fuel + 1, ps =>
    let r := resolveIter nodeMap children parentMap ps
    if r.2 then resolveLoop nodeMap children parentMap fuel r.1 else r.1

/-- `moveSubtreeHorizontally`: translate a node and all its descendants
horizontally. Unguarded recursion: fuel, `none` is divergence. -/
def moveSubtreeHorizontallyStep (children : List (String × List String))
    (rec : String → ℚ → List (String × Pt) → Option (List (String × Pt)))
    (nodeId : String) (deltaX : ℚ) (ps : List (String × Pt)) :
    Option (List (String × Pt)) :=
  let ps :=
    match mapGet ps nodeId with
    | some pos => mapSet ps nodeId ⟨pos.x + deltaX, pos.y⟩
    | none => ps
  let kids := (mapGet children nodeId).getD []
  kids.foldlM (fun ps' kidId => rec kidId deltaX ps') ps

def moveSubtreeHorizontally (children : List (String × List String)) :
    Nat → String → ℚ → List (String × Pt) → Option (List (String × Pt))
  | 0 => fun _ _ _ => none
  | fuel + 1 =>
    moveSubtreeHorizontallyStep children (moveSubtreeHorizontally children fuel)

/-- The per-edge loop of the horizontal parent/child x-overlap pass: while
the padded boxes (padding 40) overlap and fewer than 20 iterations have
run, move the child's whole subtree 40 away from the parent. `msfuel` is
the fuel for `moveSubtreeHorizontally`. -/
def horizNudgeEdgeLoop (nodeMap : List (String × GNode))
    (children : List (String × List String)) (msfuel : Nat) :
    Nat → String → String → List (String × Pt) →
    Option (List (String × Pt))
  | 0, _, _, ps => some ps
  | fuel + 1, parentId, childId, ps =>
    match getNodeBounds nodeMap ps parentId, getNodeBounds nodeMap ps childId with
    | some pb, some cb =>
      if nodesOverlap ⟨pb.x, pb.y⟩ ⟨pb.width, pb.height⟩ ⟨cb.x, cb.y⟩
          ⟨cb.width, cb.height⟩ 40 then
        let parentCenterX := pb.x + pb.width / 2
        let childCenterX := cb.x + cb.width / 2
        let direction : ℚ := if childCenterX ≥ parentCenterX then 1 else -1
        (moveSubtreeHorizontally children msfuel childId (direction * 40) ps).bind
          (fun ps' => horizNudgeEdgeLoop nodeMap children msfuel fuel parentId childId ps')
      else some ps
    | _, _ => some ps

/-- The root-children side split: explicit `sourceHandle` marker, else the
child's stored center x against the root's, else index parity. -/
def horizSplitSides (nodes : List GNode) (edges : List GEdge)
    (rootNode : GNode) (rootChildren : List String) :
    List String × List String :=
  rootChildren.enum.foldl
    (fun acc idxChild =>
      let index := idxChild.1
      let childId := idxChild.2
      let edge :=
        edges.find? (fun e => e.source == rootNode.id && e.target == childId)
      let childNode := nodes.find? (fun n => n.id == childId)
      let sh := match edge with | some e => e.sourceHandle | none => none
      if sh = some "left" then (acc.1 ++ [childId], acc.2)
      else if sh = some "right" then (acc.1, acc.2 ++ [childId])
      else
        match childNode with
        | some cn =>
          let childX := cn.position.x + cn.measuredWidth.getD nodeWidth / 2
          let rootX2 :=
            rootNode.position.x + rootNode.measuredWidth.getD nodeWidth / 2
          if childX < rootX2 then (acc.1 ++ [childId], acc.2)
          else (acc.1, acc.2 ++ [childId])
        | none =>
          if index % 2 = 0 then (acc.1, acc.2 ++ [childId])
          else (acc.1 ++ [childId], acc.2))
    ([], [])

/-- One side of the initial horizontal layout: compute each root-child's
subtree height, stack the children around the root's y, and run
`initialLayout` on each slice. -/
def horizLayoutSide (nodeMap : List (String × GNode))
    (children : List (String × List String)) (fuel : Nat)
    (kids : List String) (dirLeft : Bool)
    (st : List (String × Pt) × List (String × Handles)) :
    Option (List (String × Pt) × List (String × Handles)) :=
  if kids = [] then some st
  else do
    let childHeights ← kids.mapM (calcSubtreeHeight nodeMap children fuel)
    let totalHeight :=
      childHeights.foldl (· + ·) 0 +
        (if kids.length > 1 then ((kids.length : ℚ) - 1) * 30 else 0)
    let nextX : ℚ := if dirLeft then 800 - 350 else 800 + 350
    let r ←
      (kids.zip childHeights).foldlM
        (fun acc kidH => do
          let childCenterY := acc.2 + kidH.2 / 2
          let r ←
            initialLayout nodeMap children fuel fuel kidH.1 nextX childCenterY
              dirLeft acc.1
          pure (r.1, acc.2 + kidH.2 + 30))
        (st, 500 - totalHeight / 2)
    pure r.1

/-- The output-node projection of the horizontal layout: each input node,
with its handles and its center position converted to a top-left position
using its resolved size. -/
def horizProject (nodeMap : List (String × GNode))
    (positions : List (String × Pt)) (handles : List (String × Handles))
    (node : GNode) : GNode :=
  let pos := (mapGet positions node.id).getD ⟨0, 0⟩
  let h := (mapGet handles node.id).getD ⟨Side.left, Side.right⟩
  let nodeSize := horizGetNodeSize nodeMap node.id
  { node with
      targetPosition := some h.target
      sourcePosition := some h.source
      position := ⟨pos.x - nodeSize.width / 2, pos.y - nodeSize.height / 2⟩ }

/-- The root recentering step: center the root vertically on the extent of
its placed direct children (the source's `minY`/`maxY` scan with the
`Infinity` guards). -/
def horizRecenterRoot (nodeMap : List (String × GNode))
    (leftChildren rightChildren : List String) (rootId : String)
    (positions : List (String × Pt)) : List (String × Pt) :=
  if leftChildren ≠ [] ∨ rightChildren ≠ [] then
    let scan := fun (acc : Option ℚ × Option ℚ) (childId : String) =>
      let pos := (mapGet positions childId).getD ⟨0, 0⟩
      let size := horizGetNodeSize nodeMap childId
      let lo := pos.y - size.height / 2
      let hi := pos.y + size.height / 2
      (some (match acc.1 with | some m => min m lo | none => lo),
       some (match acc.2 with | some m => max m hi | none => hi))
    let res := rightChildren.foldl scan (leftChildren.foldl scan (none, none))
    match res with
    | (some minY, some maxY) => mapSet positions rootId ⟨800, (minY + maxY) / 2⟩
    | _ => positions
  else positions

/-- The id → node map the horizontal path builds
(`new Map(nodes.map(n => [n.id, n]))`, last id wins). -/
def horizNodeMap (nodes : List GNode) : List (String × GNode) :=
  nodes.foldl (fun m n => mapSet m n.id n) []

/-- The horizontal path's root pick: the first node with no incoming edge,
else the first node, else nothing. -/
def horizRootNode (nodes : List GNode) (edges : List GEdge) : Option GNode :=
  match nodes with
  | [] => none
  | n0 :: _ =>
    let targetIds := edges.map (·.target)
    match nodes.filter (fun n => !targetIds.contains n.id) with
    | r :: _ => some r
    | [] => some n0

/-- The picked root's id (empty for an empty graph, which the layout
handles before ever using it). -/
def horizRootId (nodes : List GNode) (edges : List GEdge) : String :=
  match horizRootNode nodes edges with
  | some r => r.id
  | none => ""

/-- The positions-and-handles computation of `horizontalLayout`, up to and
including the parent/child x-nudge pass (everything before the orphan
fallback): root pick, side split, per-side initial layout, root
recentering, overlap resolution, x-nudge. `none` models the divergence of
the unguarded subtree recursions on cyclic inputs. -/
def horizMainPositions (nodes : List GNode) (edges : List GEdge) :
    Option (List (String × Pt) × List (String × Handles)) :=
  match nodes with
  | [] => none
  | n0 :: _ =>
    let rootNode := (horizRootNode nodes edges).getD n0
    let tp := buildTree nodes edges
    let children := tp.1
    let parentMap := tp.2
    let nodeMap := horizNodeMap nodes
    let fuel := nodes.length + 1
    let rootChildren := (mapGet children rootNode.id).getD []
    let sides := horizSplitSides nodes edges rootNode rootChildren
    let leftChildren := sides.1
    let rightChildren := sides.2
    do
    let st0 :=
      (mapSet ([] : List (String × Pt)) rootNode.id ⟨800, 500⟩,
       mapSet ([] : List (String × Handles)) rootNode.id ⟨Side.left, Side.right⟩)
    let st1 ← horizLayoutSide nodeMap children fuel leftChildren true st0
    let st2 ← horizLayoutSide nodeMap children fuel rightChildren false st1
    let positions :=
      horizRecenterRoot nodeMap leftChildren rightChildren rootNode.id st2.1
    let positions := resolveLoop nodeMap children parentMap 50 positions
    let positions ←
      edges.foldlM
        (fun ps e => horizNudgeEdgeLoop nodeMap children fuel 20 e.source e.target ps)
        positions
    pure (positions, st2.2)

/-- The horizontal orphan fallback: every node still without a position
gets the fixed center `(rootX + 500, rootY) = (1300, 500)` and default
handles. -/
def horizOrphanPass (nodes : List GNode)
    (st : List (String × Pt) × List (String × Handles)) :
    List (String × Pt) × List (String × Handles) :=
  nodes.foldl
    (fun acc node =>
      if (mapGet acc.1 node.id).isNone then
        (mapSet acc.1 node.id ⟨1300, 500⟩,
         mapSet acc.2 node.id ⟨Side.left, Side.right⟩)
      else acc)
    st

/-- The output-edge projection of the horizontal layout: for edges whose
endpoints resolve to output nodes, the source handle follows the source's
anchor — except for the root, whose handle follows the target's placed
side relative to the root anchor x (800) — and the target handle follows
the target's anchor. -/
def horizProjectEdge (rootId : String) (positions : List (String × Pt))
    (newNodes : List GNode) (edge : GEdge) : GEdge :=
  match newNodes.find? (fun n => n.id == edge.source),
      newNodes.find? (fun n => n.id == edge.target) with
  | some src, some tgt =>
    let srcHandle :=
      if src.id == rootId then
        if ((mapGet positions edge.target).getD ⟨0, 0⟩).x < 800 then "left"
        else "right"
      else if src.sourcePosition = some Side.left then "left"
      else "right"
    let tgtHandle :=
      if tgt.targetPosition = some Side.left then "left" else "right"
    { edge with sourceHandle := some srcHandle, targetHandle := some tgtHandle }
  | _, _ => edge

/-- `horizontalLayout`: the main positions pass, the orphan fallback, and
projection to output nodes and edges. -/
def horizontalLayout (nodes : List GNode) (edges : List GEdge) :
    Option (List GNode × List GEdge) :=
  match nodes with
  | [] => some (nodes, edges)
  | _ :: _ => do
    let st ← horizMainPositions nodes edges
    let final := horizOrphanPass nodes st
    let newNodes := nodes.map (horizProject (horizNodeMap nodes) final.1 final.2)
    let newEdges :=
      edges.map (horizProjectEdge (horizRootId nodes edges) final.1 newNodes)
    pure (newNodes, newEdges)

/-! ### Rank-based layout (src layout module, the dagre path of
`getLayoutedElements`)

The external `dagre.layout` call is abstracted by a parameter
`dagrePos : String → Pt` giving the position dagre assigned to each
registered node (dagre assigns one to every node added with `setNode`, so
the source's `dagreGraph.node(id)` lookups are total). The in-place
mutation of dagre's node records by the redistribution pass becomes an
update of the position map, which the projection pass then reads. -/

/-- The side sets of the dagre path: for a horizontal run the nodes left
of the root (by stored center, plus targets of edges marked
`sourceHandle: 'left'`); for a vertical run the nodes above the root (plus
targets of `sourceHandle: 'top'` edges). Empty when there is no root. -/
def dagreSideNodes (isHorizontal : Bool) (nodes : List GNode)
    (edges : List GEdge) (rootNode : Option GNode) : List String :=
  match rootNode with
  | none => []
  | some root =>
    if isHorizontal then
      let s :=
        nodes.foldl
          (fun s node =>
            if node.id ≠ root.id then
              let nodeCenterX :=
                node.position.x + node.measuredWidth.getD nodeWidth / 2
              let rootCenterX :=
                root.position.x + root.measuredWidth.getD nodeWidth / 2
              if nodeCenterX < rootCenterX then s ++ [node.id] else s
            else s)
          []
      edges.foldl
        (fun s edge =>
          if edge.sourceHandle = some "left" then s ++ [edge.target] else s)
        s
    else
      let s :=
        nodes.foldl
          (fun s node =>
            if node.id ≠ root.id then
              let nodeCenterY :=
                node.position.y + node.measuredHeight.getD nodeHeight / 2
              let rootCenterY :=
                root.position.y + root.measuredHeight.getD nodeHeight / 2
              if nodeCenterY < rootCenterY then s ++ [node.id] else s
            else s)
          []
      edges.foldl
        (fun s edge =>
          if edge.sourceHandle = some "top" then s ++ [edge.target] else s)
        s

/-- The even redistribution pass: group nodes by their `data.level`
(tracking the minimum level), then rewrite each level's positions — a
single node is centered, several are spread evenly over the available
range (spacing at least 100), sorted by their dagre coordinate. -/
def dagreRedistribute (isHorizontal : Bool) (nodes : List GNode)
    (posMap0 : List (String × Pt)) : List (String × Pt) :=
  let grouped :=
    nodes.foldl
      (fun acc node =>
        let level := node.dataLevel.getD 0
        let byLevel :=
          match mapGet acc.1 level with
          | some l => mapSet acc.1 level (l ++ [node.id])
          | none => mapSet acc.1 level [node.id]
        (byLevel,
         some (match acc.2.1 with | some m => min m level | none => level),
         some (match acc.2.2 with | some m => max m level | none => level)))
      (([] : List (ℤ × List String)), (none : Option ℤ), (none : Option ℤ))
  let byLevel := grouped.1
  let minLevel := grouped.2.1
  byLevel.foldl
    (fun pm lvlGroup =>
      if lvlGroup.2 = [] then pm
      else
        let sorted :=
          sortByKey
            (fun nid =>
              let p := (mapGet pm nid).getD ⟨0, 0⟩
              if isHorizontal then p.y else p.x)
            lvlGroup.2
        let levelIndex : ℚ := ((lvlGroup.1 - minLevel.getD 0 : ℤ) : ℚ)
        let basePos :=
          levelIndex * (if isHorizontal then (400 : ℚ) else 250) + 300
        match sorted with
        | [onlyId] =>
          mapSet pm onlyId
            (if isHorizontal then ⟨basePos, 400⟩ else ⟨400, basePos⟩)
        | _ =>
          let spacing :=
            max ((if isHorizontal then (1200 : ℚ) else 1000) /
              ((lvlGroup.2.length : ℚ) + 1)) 100
          let startPos := 200 + spacing
          sorted.enum.foldl
            (fun pm2 idxId =>
              let coord := startPos + (idxId.1 : ℚ) * spacing
              mapSet pm2 idxId.2
                (if isHorizontal then ⟨basePos, coord⟩ else ⟨coord, basePos⟩))
            pm)
    posMap0

/-- The node projection of the dagre path: convert each node's (possibly
redistributed) center to a top-left position, mirror nodes that ended on
the wrong side of the root, and assign anchor sides from the node's
resolved side. -/
def dagreProjectNodes (isHorizontal : Bool) (nodes : List GNode)
    (posMap : List (String × Pt)) (rootNode : Option GNode)
    (sideNodes : List String) : List GNode :=
  nodes.map (fun node =>
    let pos := (mapGet posMap node.id).getD ⟨0, 0⟩
    let mw := node.measuredWidth.getD nodeWidth
    let mh := node.measuredHeight.getD nodeHeight
    let finalX0 := pos.x - mw / 2
    let finalY0 := pos.y - mh / 2
    if isHorizontal then
      let finalX :=
        match rootNode with
        | some root =>
          if node.id ≠ root.id then
            let rootX := ((mapGet posMap root.id).getD ⟨0, 0⟩).x
            let nodeX := pos.x
            let shouldBeOnLeft := sideNodes.contains node.id
            let isOnLeft := nodeX < rootX
            if shouldBeOnLeft ∧ ¬isOnLeft then rootX - (nodeX - rootX) - mw
            else if ¬shouldBeOnLeft ∧ isOnLeft then
              rootX + (rootX - nodeX) - mw / 2
            else finalX0
          else finalX0
        | none => finalX0
      let tps : Side × Side :=
        match rootNode with
        | some root =>
          if node.id ≠ root.id ∧ sideNodes.contains node.id then
            (Side.right, Side.left)
          else (Side.left, Side.right)
        | none => (Side.left, Side.right)
      { node with
          targetPosition := some tps.1
          sourcePosition := some tps.2
          position := ⟨finalX, finalY0⟩ }
    else
      let finalY :=
        match rootNode with
        | some root =>
          if node.id ≠ root.id then
            let rootY := ((mapGet posMap root.id).getD ⟨0, 0⟩).y
            let nodeY := pos.y
            let shouldBeOnTop := sideNodes.contains node.id
            let isOnTop := nodeY < rootY
            if shouldBeOnTop ∧ ¬isOnTop then rootY - (nodeY - rootY) - mh
            else if ¬shouldBeOnTop ∧ isOnTop then
              rootY + (rootY - nodeY) - mh / 2
            else finalY0
          else finalY0
        | none => finalY0
      let tps : Side × Side :=
        match rootNode with
        | some root =>
          if node.id ≠ root.id ∧ sideNodes.contains node.id then
            (Side.bottom, Side.top)
          else (Side.top, Side.bottom)
        | none => (Side.top, Side.bottom)
      { node with
          targetPosition := some tps.1
          sourcePosition := some tps.2
          position := ⟨finalX0, finalY⟩ })

/-- The edge projection of the dagre path: recompute handle identifiers
from the connected nodes' resolved anchors (root edges keep their stored
handle, defaulting to the trunk side). -/
def dagreProjectEdges (isHorizontal : Bool) (newNodes : List GNode)
    (edges : List GEdge) (rootNode : Option GNode) : List GEdge :=
  edges.map (fun edge =>
    match newNodes.find? (fun n => n.id == edge.source),
        newNodes.find? (fun n => n.id == edge.target) with
    | some src, some tgt =>
      if isHorizontal then
        let sourceHandle : Option String :=
          if (match rootNode with | some r => src.id == r.id | none => false) then
            some (match edge.sourceHandle with
              | some s => if s = "" then "right" else s
              | none => "right")
          else
            match src.sourcePosition with
            | some Side.left => some "left"
            | some Side.right => some "right"
            | _ => edge.sourceHandle
        let targetHandle : Option String :=
          match tgt.targetPosition with
          | some Side.left => some "left"
          | some Side.right => some "right"
          | _ => edge.targetHandle
        { edge with sourceHandle := sourceHandle, targetHandle := targetHandle }
      else
        let sourceHandle : Option String :=
          if (match rootNode with | some r => src.id == r.id | none => false) then
            some (match edge.sourceHandle with
              | some s => if s = "" then "bottom" else s
              | none => "bottom")
          else
            match src.sourcePosition with
            | some Side.top => some "top"
            | some Side.bottom => some "bottom"
            | _ => edge.sourceHandle
        let targetHandle : Option String :=
          match tgt.targetPosition with
          | some Side.top => some "top"
          | some Side.bottom => some "bottom"
          | _ => edge.targetHandle
        { edge with sourceHandle := sourceHandle, targetHandle := targetHandle }
    | _, _ => edge)

/-- The dagre path of `getLayoutedElements` (reached for the `'TB'`
direction, so with `isHorizontal = false`). -/
def dagreLayout (dagrePos : String → Pt) (isHorizontal : Bool)
    (nodes : List GNode) (edges : List GEdge) :
    List GNode × List GEdge :=
  let targetIds := edges.map (·.target)
  let rootNodes := nodes.filter (fun n => !targetIds.contains n.id)
  let rootNode : Option GNode :=
    match rootNodes with | r :: _ => some r | [] => nodes.head?
  let sideNodes := dagreSideNodes isHorizontal nodes edges rootNode
  let posMap0 := nodes.foldl (fun m n => mapSet m n.id (dagrePos n.id)) []
  let posMap := dagreRedistribute isHorizontal nodes posMap0
  let newNodes := dagreProjectNodes isHorizontal nodes posMap rootNode sideNodes
  (newNodes, dagreProjectEdges isHorizontal newNodes edges rootNode)

/-- The `direction` argument of `getLayoutedElements`. -/
inductive LayoutDirection where
  | TB
  | LR
  | radial
deriving DecidableEq, Repr

/-- `getLayoutedElements`: radial for `'radial'`, the horizontal tree
layout for `'LR'`, the dagre path for `'TB'`. -/
def getLayoutedElements (tcos tsin : ℚ → ℚ) (at2 : ℚ → ℚ → ℚ) (pi : ℚ)
    (dagrePos : String → Pt) (nodes : List GNode) (edges : List GEdge)
    (direction : LayoutDirection) : Option (List GNode × List GEdge) :=
  match direction with
  | LayoutDirection.radial =>
    (radialLayout tcos tsin at2 pi nodes edges).map (fun ns => (ns, edges))
  | LayoutDirection.LR => horizontalLayout nodes edges
  | LayoutDirection.TB => some (dagreLayout dagrePos false nodes edges)

/-! ### Incremental placement (`findNonOverlappingPosition`,
src/client/src/pages/MindMapPage.tsx)

`Math.sqrt` is an abstract parameter `sqrtFn : ℚ → ℚ`; it only feeds the
summed candidate distances, so every theorem quantified over `sqrtFn`
covers the real square root. -/

/-- An existing node's box size as `findNonOverlappingPosition` resolves
it: measured, else stored on `data`, else the candidate's own size. -/
def fnopExistingSize (nodeW nodeH : ℚ) (n : GNode) : Size :=
  ⟨n.measuredWidth.getD (n.dataWidth.getD nodeW),
   n.measuredHeight.getD (n.dataHeight.getD nodeH)⟩

/-- The per-candidate inner loop: walk the existing nodes; if the padded
candidate box (padding 20, strict comparisons) overlaps one, stop with
`none` (the source's `hasOverlap = true; break`); otherwise accumulate the
center-to-center distances and return the total. -/
def fnopCheckCandidate (sqrtFn : ℚ → ℚ) (nodeW nodeH : ℚ)
    (existingNodes : List GNode) (testX testY : ℚ) : Option ℚ :=
  existingNodes.foldlM
    (fun total existingNode =>
      let esize := fnopExistingSize nodeW nodeH existingNode
      let existingLeft := existingNode.position.x
      let existingRight := existingNode.position.x + esize.width
      let existingTop := existingNode.position.y
      let existingBottom := existingNode.position.y + esize.height
      let testLeft := testX
      let testRight := testX + nodeW
      let testTop := testY
      let testBottom := testY + nodeH
      if ¬(testRight + 20 < existingLeft ∨ testLeft - 20 > existingRight ∨
          testBottom + 20 < existingTop ∨ testTop - 20 > existingBottom) then
        none
      else
        let centerX := (testLeft + testRight) / 2
        let centerY := (testTop + testBottom) / 2
        let existingCenterX := (existingLeft + existingRight) / 2
        let existingCenterY := (existingTop + existingBottom) / 2
        some (total +
          sqrtFn ((centerX - existingCenterX) ^ 2 +
            (centerY - existingCenterY) ^ 2)))
    0

/-- The candidate y offsets of the vertical scan: -200 to 200 in steps of
50. -/
def fnopYOffsets : List ℚ := [-200, -150, -100, -50, 0, 50, 100, 150, 200]

/-- The candidate x adjustments of the fallback scan: 0 to 450 in steps of
50. -/
def fnopXAdjusts : List ℚ := [0, 50, 100, 150, 200, 250, 300, 350, 400, 450]

/-- One step of the vertical scan: keep the candidate when it is
overlap-free and its total distance is strictly below the best so far
(`minDistance` starts at Infinity, modelled as `none`). -/
def fnopStep (sqrtFn : ℚ → ℚ) (initialX initialY nodeW nodeH : ℚ)
    (existingNodes : List GNode) (acc : ℚ × ℚ × Option ℚ) (yOffset : ℚ) :
    ℚ × ℚ × Option ℚ :=
  let testY := initialY + yOffset
  let testX := initialX
  match fnopCheckCandidate sqrtFn nodeW nodeH existingNodes testX testY with
  | some totalDistance =>
    if (match acc.2.2 with
        | some m => decide (totalDistance < m)
        | none => true) then
      (testX, testY, some totalDistance)
    else acc
  | none => acc

/-- The vertical scan: fold the y candidates with `fnopStep`. -/
def fnopScanY (sqrtFn : ℚ → ℚ) (initialX initialY nodeW nodeH : ℚ)
    (existingNodes : List GNode) : ℚ × ℚ × Option ℚ :=
  fnopYOffsets.foldl
    (fnopStep sqrtFn initialX initialY nodeW nodeH existingNodes)
    (initialX, initialY, none)

/-- `findNonOverlappingPosition`: the vertical scan, then — only when no
vertical candidate was overlap-free — the horizontal fallback scan in the
insertion direction at the best y found. -/
def findNonOverlappingPosition (sqrtFn : ℚ → ℚ)
    (initialX initialY nodeW nodeH : ℚ) (existingNodes : List GNode)
    (dirRight : Bool) : Pt :=
  let scan := fnopScanY sqrtFn initialX initialY nodeW nodeH existingNodes
  let bestX := scan.1
  let bestY := scan.2.1
  match scan.2.2 with
  | some _ => ⟨bestX, bestY⟩
  | none =>
    let clearAt := fun (testX : ℚ) =>
      existingNodes.all (fun existingNode =>
        let esize := fnopExistingSize nodeW nodeH existingNode
        let existingLeft := existingNode.position.x
        let existingRight := existingNode.position.x + esize.width
        let existingTop := existingNode.position.y
        let existingBottom := existingNode.position.y + esize.height
        decide (testX + nodeW + 20 < existingLeft ∨
          testX - 20 > existingRight ∨
          bestY + nodeH + 20 < existingTop ∨ bestY - 20 > existingBottom))
    match fnopXAdjusts.find?
        (fun xAdjust =>
          clearAt (initialX + (if dirRight then xAdjust else -xAdjust))) with
    | some xAdjust => ⟨initialX + (if dirRight then xAdjust else -xAdjust), bestY⟩
    | none => ⟨bestX, bestY⟩

/-! ### Claim C9: `findRootNodes` -/

/-- A node has no incoming edge. -/
def noIncoming (edges : List GEdge) (n : GNode) : Prop :=
  ¬((edges.map (·.target)).contains n.id = true)

/-- Claim C9: `findRootNodes` returns exactly the nodes with no incoming
edge; if that set is empty and the node list is non-empty it returns the
single-element list with the first node; on an empty node list it returns
`[]`. -/
theorem findRootNodes_spec (nodes : List GNode) (edges : List GEdge) :
    (nodes.filter (fun n => !(edges.map (·.target)).contains n.id) ≠ [] →
      findRootNodes nodes edges =
        nodes.filter (fun n => !(edges.map (·.target)).contains n.id)) ∧
    (nodes.filter (fun n => !(edges.map (·.target)).contains n.id) = [] →
      ∀ n rest, nodes = n :: rest → findRootNodes nodes edges = [n]) ∧
    (nodes = [] → findRootNodes nodes edges = []) := by
  refine ⟨?_, ?_, ?_⟩
  · intro hne
    unfold findRootNodes
    simp only []
    rw [if_pos]
    exact List.length_pos.mpr hne
  · intro hemp n rest hcons
    unfold findRootNodes
    simp only []
    rw [hemp] at *
    subst hcons
    simp [hemp]
  · intro hnil
    subst hnil
    simp [findRootNodes]

/-- Witness for C9 at a concrete graph: two nodes, one edge `a → b`;
the root set is `[a]`. -/
theorem findRootNodes_spec_witness :
    findRootNodes [mkNode "a" ⟨0, 0⟩, mkNode "b" ⟨0, 0⟩]
        [⟨"e1", "a", "b", none, none⟩] = [mkNode "a" ⟨0, 0⟩] := by
  have h := findRootNodes_spec
    [mkNode "a" ⟨0, 0⟩, mkNode "b" ⟨0, 0⟩] [⟨"e1", "a", "b", none, none⟩]
  have := h.1 (by decide)
  rw [this]
  decide

/-! ### Shared shape lemmas for the layout outputs -/

/-- A projection that only rewrites a node's position and anchor sides. -/
def ProjShape (f : GNode → GNode) : Prop :=
  ∀ n : GNode, ∃ tp sp pos,
    f n = { n with targetPosition := tp, sourcePosition := sp, position := pos }

theorem radialProject_shape (nodes : List GNode)
    (positions : List (String × Pt)) (handles : List (String × Handles)) :
    ∃ f, ProjShape f ∧ radialProject nodes positions handles = nodes.map f := by
  refine ⟨_, ?_, rfl⟩
  intro n
  exact ⟨_, _, _, rfl⟩

theorem radialLayout_nodes_shape (tcos tsin : ℚ → ℚ) (at2 : ℚ → ℚ → ℚ)
    (pi : ℚ) (nodes : List GNode) (edges : List GEdge) (out : List GNode)
    (h : radialLayout tcos tsin at2 pi nodes edges = some out) :
    ∃ f, ProjShape f ∧ out = nodes.map f := by
  unfold radialLayout at h
  by_cases hn : nodes = []
  · subst hn
    rw [if_pos rfl] at h
    exact ⟨id, fun n => ⟨n.targetPosition, n.sourcePosition, n.position, rfl⟩,
      by simp [← Option.some_inj.mp h]⟩
  · rw [if_neg hn] at h
    simp only [Option.bind_eq_bind', Option.bind_eq_some] at h
    obtain ⟨stOff, _hst, h⟩ := h
    obtain ⟨st, off⟩ := stOff
    simp only [Option.pure_def, Option.some_inj] at h
    obtain ⟨f, hf, hmap⟩ :=
      radialProject_shape nodes
        ((radialOrphans nodes _ (radialNudge nodes edges _) _ _).1)
        ((radialOrphans nodes _ (radialNudge nodes edges _) _ _).2.1)
    exact ⟨f, hf, by rw [← h, ← hmap]⟩

theorem horizontalLayout_shape (nodes : List GNode) (edges : List GEdge)
    (out : List GNode × List GEdge)
    (h : horizontalLayout nodes edges = some out) :
    (nodes = [] ∧ out = (nodes, edges)) ∨
      ∃ f, ProjShape f ∧ out.1 = nodes.map f := by
  cases nodes with
  | nil =>
    left
    have h' : some (([] : List GNode), edges) = some out := h
    exact ⟨rfl, (Option.some_inj.mp h').symm⟩
  | cons n0 rest =>
    right
    unfold horizontalLayout at h
    simp only [Option.bind_eq_bind', Option.bind_eq_some] at h
    obtain ⟨st, _h1, h⟩ := h
    simp only [Option.pure_def, Option.some_inj] at h
    subst h
    refine ⟨horizProject _ _ _, ?_, rfl⟩
    intro n
    exact ⟨_, _, _, rfl⟩

theorem dagreProjectNodes_shape (isHorizontal : Bool) (nodes : List GNode)
    (posMap : List (String × Pt)) (rootNode : Option GNode)
    (sideNodes : List String) :
    ∃ f, ProjShape f ∧
      dagreProjectNodes isHorizontal nodes posMap rootNode sideNodes =
        nodes.map f := by
  refine ⟨_, ?_, rfl⟩
  intro n
  cases isHorizontal with
  | true => exact ⟨_, _, _, rfl⟩
  | false => exact ⟨_, _, _, rfl⟩

/-- The node list any successful `getLayoutedElements` call returns is a
per-node projection of the input list that only rewrites positions and
anchors (for the empty horizontal input, the input itself). -/
theorem getLayoutedElements_nodes_shape (tcos tsin : ℚ → ℚ)
    (at2 : ℚ → ℚ → ℚ) (pi : ℚ) (dagrePos : String → Pt)
    (nodes : List GNode) (edges : List GEdge) (direction : LayoutDirection)
    (out : List GNode × List GEdge)
    (h : getLayoutedElements tcos tsin at2 pi dagrePos nodes edges direction =
      some out) :
    ∃ f, ProjShape f ∧ out.1 = nodes.map f := by
  match direction with
  | LayoutDirection.radial =>
    simp only [getLayoutedElements, Option.map_eq_some'] at h
    obtain ⟨ns, hns, hout⟩ := h
    obtain ⟨f, hf, hmap⟩ := radialLayout_nodes_shape tcos tsin at2 pi nodes edges ns hns
    exact ⟨f, hf, by rw [← hout, ← hmap]⟩
  | LayoutDirection.LR =>
    simp only [getLayoutedElements] at h
    rcases horizontalLayout_shape nodes edges out h with ⟨hnil, hout⟩ | hshape
    · subst hnil
      exact ⟨id, fun n => ⟨n.targetPosition, n.sourcePosition, n.position, rfl⟩,
        by rw [hout]; simp⟩
    · exact hshape
  | LayoutDirection.TB =>
    simp only [getLayoutedElements, Option.some_inj] at h
    obtain ⟨f, hf, hmap⟩ :=
      dagreProjectNodes_shape false nodes _ _ _
    refine ⟨f, hf, ?_⟩
    rw [← h]
    exact hmap

/-- A projection with `ProjShape` keeps every id. -/
theorem ProjShape_id {f : GNode → GNode} (hf : ProjShape f) (n : GNode) :
    (f n).id = n.id := by
  obtain ⟨tp, sp, pos, hfn⟩ := hf n
  rw [hfn]

/-! ### Claim C1 (corrected): node preservation -/

/-- The three-node cycle graph `r → a → b → a`. -/
def cycNodes : List GNode :=
  [mkNode "r" ⟨0, 0⟩, mkNode "a" ⟨0, 0⟩, mkNode "b" ⟨0, 0⟩]

def cycEdges : List GEdge :=
  [⟨"e1", "r", "a", none, none⟩, ⟨"e2", "a", "b", none, none⟩,
   ⟨"e3", "b", "a", none, none⟩]

/-- Counterexample to C1: on the cyclic graph `r → a → b → a` (a cycle
reachable from the root) the horizontal layout path diverges — the
unguarded `calcSubtreeHeight`/`initialLayout` recursions never return, so
the call yields no output nodes at all, rather than one output node per
input node. -/
theorem getLayoutedElements_cycle_counterexample :
    getLayoutedElements (fun _ => 0) (fun _ => 0) (fun _ _ => 0) 0
      (fun _ => ⟨0, 0⟩) cycNodes cycEdges LayoutDirection.LR = none := by
  decide

/-- Amended C1: whenever a `getLayoutedElements` call returns (which it
does unless the unguarded traversal recursions diverge on a cycle
reachable from the chosen root), it returns exactly one output node per
input node — same ids in the same order, no loss and no duplication —
and every output node carries the projected position. -/
theorem getLayoutedElements_preserves_ids (tcos tsin : ℚ → ℚ)
    (at2 : ℚ → ℚ → ℚ) (pi : ℚ) (dagrePos : String → Pt)
    (nodes : List GNode) (edges : List GEdge) (direction : LayoutDirection)
    (out : List GNode × List GEdge)
    (h : getLayoutedElements tcos tsin at2 pi dagrePos nodes edges direction =
      some out) :
    out.1.map (·.id) = nodes.map (·.id) := by
  obtain ⟨f, hf, hmap⟩ :=
    getLayoutedElements_nodes_shape tcos tsin at2 pi dagrePos nodes edges
      direction out h
  rw [hmap, List.map_map]
  exact List.map_congr_left (fun n _ => ProjShape_id hf n)

/-- Witness for the amended C1 on an acyclic two-node graph laid out with
the horizontal path. -/
theorem getLayoutedElements_preserves_ids_witness :
    (getLayoutedElements (fun _ => 0) (fun _ => 0) (fun _ _ => 0) 0
        (fun _ => ⟨0, 0⟩) [mkNode "r" ⟨0, 0⟩, mkNode "a" ⟨0, 0⟩]
        [⟨"e1", "r", "a", none, none⟩] LayoutDirection.LR).map
      (fun out => out.1.map (·.id)) = some ["r", "a"] := by
  cases h : getLayoutedElements (fun _ => 0) (fun _ => 0) (fun _ _ => 0) 0
      (fun _ => ⟨0, 0⟩) [mkNode "r" ⟨0, 0⟩, mkNode "a" ⟨0, 0⟩]
      [⟨"e1", "r", "a", none, none⟩] LayoutDirection.LR with
  | none => exact absurd h (by decide)
  | some out =>
    have := getLayoutedElements_preserves_ids (fun _ => 0) (fun _ => 0)
      (fun _ _ => 0) 0 (fun _ => ⟨0, 0⟩) [mkNode "r" ⟨0, 0⟩, mkNode "a" ⟨0, 0⟩]
      [⟨"e1", "r", "a", none, none⟩] LayoutDirection.LR out h
    simp [this, mkNode]

/-! ### Claim C3 (code_bug): termination on cycles -/

def cycChildren : List (String × List String) := (buildTree cycNodes cycEdges).1

def cycNodeMap : List (String × GNode) :=
  cycNodes.foldl (fun m n => mapSet m n.id n) []

/-- Claim C3 is right about the intent but the code lacks the guard: the
horizontal path's subtree-extent recursion `calcSubtreeHeight` (and
likewise `initialLayout`, and the radial `positionChildren`) checks no
visited set, so on the cycle `a → b → a` reachable from the root it never
returns: for every recursion budget the embedded computation runs out of
fuel. Only `calculateLevels` has the visited guard the spec describes. -/
theorem calcSubtreeHeight_cycle_diverges :
    ∀ fuel : Nat,
      calcSubtreeHeight cycNodeMap cycChildren fuel "a" = none ∧
        calcSubtreeHeight cycNodeMap cycChildren fuel "b" = none := by
  intro fuel
  induction fuel with
  | zero => exact ⟨rfl, rfl⟩
  | succ f ih =>
    have ha : (mapGet cycChildren "a").getD [] = ["b"] := by decide
    have hb : (mapGet cycChildren "b").getD [] = ["a"] := by decide
    constructor
    · show calcSubtreeHeightStep cycNodeMap cycChildren
        (calcSubtreeHeight cycNodeMap cycChildren f) "a" = none
      simp only [calcSubtreeHeightStep, ha]
      simp [List.mapM.loop, ih.2]
    · show calcSubtreeHeightStep cycNodeMap cycChildren
        (calcSubtreeHeight cycNodeMap cycChildren f) "b" = none
      simp only [calcSubtreeHeightStep, hb]
      simp [List.mapM.loop, ih.1]

/-! ### Claim C10 (confirmed): frame of the node projection -/

/-- Two nodes agree on every field except `position`, `sourcePosition` and
`targetPosition`. -/
def FrameEq (m n : GNode) : Prop :=
  m.id = n.id ∧ m.measuredWidth = n.measuredWidth ∧
    m.measuredHeight = n.measuredHeight ∧ m.dataWidth = n.dataWidth ∧
    m.dataHeight = n.dataHeight ∧ m.dataLevel = n.dataLevel ∧
    m.dataLabel = n.dataLabel ∧ m.selected = n.selected ∧ m.ntype = n.ntype

theorem frameEq_of_projShape {f : GNode → GNode} (hf : ProjShape f)
    (n : GNode) : FrameEq (f n) n := by
  obtain ⟨tp, sp, pos, h⟩ := hf n
  rw [h]
  exact ⟨rfl, rfl, rfl, rfl, rfl, rfl, rfl, rfl, rfl⟩

theorem forall₂_frame_map (f : GNode → GNode) (hf : ProjShape f) :
    ∀ l : List GNode, List.Forall₂ FrameEq (l.map f) l
  | [] => List.Forall₂.nil
  | x :: xs =>
    List.Forall₂.cons (frameEq_of_projShape hf x) (forall₂_frame_map f hf xs)

/-- Claim C10: for every input node, the corresponding output node of any
layout path (matched positionally — the output list is the input list
mapped) differs from it at most in `position`, `sourcePosition` and
`targetPosition`; id, measured size, `data` (stored size, level, label),
selection state and node type are returned unchanged. -/
theorem getLayoutedElements_frame (tcos tsin : ℚ → ℚ) (at2 : ℚ → ℚ → ℚ)
    (pi : ℚ) (dagrePos : String → Pt) (nodes : List GNode)
    (edges : List GEdge) (direction : LayoutDirection)
    (out : List GNode × List GEdge)
    (h : getLayoutedElements tcos tsin at2 pi dagrePos nodes edges direction =
      some out) :
    List.Forall₂ FrameEq out.1 nodes := by
  obtain ⟨f, hf, hmap⟩ :=
    getLayoutedElements_nodes_shape tcos tsin at2 pi dagrePos nodes edges
      direction out h
  rw [hmap]
  exact forall₂_frame_map f hf nodes

/-- Witness for C10 on a concrete rank-based (TB) call. -/
theorem getLayoutedElements_frame_witness :
    (getLayoutedElements (fun _ => 0) (fun _ => 0) (fun _ _ => 0) 0
        (fun _ => ⟨100, 100⟩) [mkNode "r" ⟨0, 0⟩, mkNode "a" ⟨3, 4⟩]
        [⟨"e1", "r", "a", none, none⟩] LayoutDirection.TB).elim False
      (fun out =>
        List.Forall₂ FrameEq out.1 [mkNode "r" ⟨0, 0⟩, mkNode "a" ⟨3, 4⟩]) := by
  cases h : getLayoutedElements (fun _ => 0) (fun _ => 0) (fun _ _ => 0) 0
      (fun _ => ⟨100, 100⟩) [mkNode "r" ⟨0, 0⟩, mkNode "a" ⟨3, 4⟩]
      [⟨"e1", "r", "a", none, none⟩] LayoutDirection.TB with
  | none => exact absurd h (by decide)
  | some out =>
    simpa using getLayoutedElements_frame (fun _ => 0) (fun _ => 0)
      (fun _ _ => 0) 0 (fun _ => ⟨100, 100⟩) [mkNode "r" ⟨0, 0⟩, mkNode "a" ⟨3, 4⟩]
      [⟨"e1", "r", "a", none, none⟩] LayoutDirection.TB out h

/-! ### Claim C8 (corrected): size accessor precedence -/

/-- Claim C8 as stated: every layout path's size accessor resolves a
node's effective size as measured render size → size stored on the node's
data → the fixed defaults (250 × 80). The hypotheses say the lookup the
respective accessor performs (first match for the radial path, id → node
map for the horizontal path) finds the node. -/
def C8Statement : Prop :=
  ∀ (nodes : List GNode) (n : GNode),
    nodes.find? (fun x => x.id == n.id) = some n →
    mapGet (nodes.foldl (fun m x => mapSet m x.id x) []) n.id = some n →
    radialGetNodeSize nodes n.id =
        ⟨n.measuredWidth.getD (n.dataWidth.getD nodeWidth),
         n.measuredHeight.getD (n.dataHeight.getD nodeHeight)⟩ ∧
      horizGetNodeSize (nodes.foldl (fun m x => mapSet m x.id x) []) n.id =
        ⟨n.measuredWidth.getD (n.dataWidth.getD nodeWidth),
         n.measuredHeight.getD (n.dataHeight.getD nodeHeight)⟩

/-- Counterexample to C8: a node with no measured size and width 999
stored on its data. The radial accessor returns the default 250, not 999:
the radial (and rank-based) paths skip the stored-data step. -/
theorem radialGetNodeSize_ignores_data_counterexample : ¬C8Statement := by
  intro h
  have hc :=
    (h [{ mkNode "d" ⟨0, 0⟩ with dataWidth := some 999 }]
      { mkNode "d" ⟨0, 0⟩ with dataWidth := some 999 } (by decide) (by decide)).1
  exact absurd hc (by decide)

/-- Amended C8: the horizontal accessor follows measured → stored data →
defaults; the radial accessor follows measured → defaults, ignoring the
stored data size; both are total, and return positive dimensions whenever
the sizes present on the node are positive (the defaults 250 and 80 are
positive). -/
theorem getNodeSize_precedence (nodes : List GNode) (n : GNode)
    (h1 : nodes.find? (fun x => x.id == n.id) = some n)
    (h2 : mapGet (nodes.foldl (fun m x => mapSet m x.id x) []) n.id = some n) :
    radialGetNodeSize nodes n.id =
        ⟨n.measuredWidth.getD nodeWidth, n.measuredHeight.getD nodeHeight⟩ ∧
      horizGetNodeSize (nodes.foldl (fun m x => mapSet m x.id x) []) n.id =
        ⟨n.measuredWidth.getD (n.dataWidth.getD nodeWidth),
         n.measuredHeight.getD (n.dataHeight.getD nodeHeight)⟩ ∧
      ((∀ q, n.measuredWidth = some q → 0 < q) →
        (∀ q, n.dataWidth = some q → 0 < q) →
        0 < (radialGetNodeSize nodes n.id).width ∧
          0 < (horizGetNodeSize (nodes.foldl (fun m x => mapSet m x.id x) [])
            n.id).width) ∧
      ((∀ q, n.measuredHeight = some q → 0 < q) →
        (∀ q, n.dataHeight = some q → 0 < q) →
        0 < (radialGetNodeSize nodes n.id).height ∧
          0 < (horizGetNodeSize (nodes.foldl (fun m x => mapSet m x.id x) [])
            n.id).height) := by
  have hr : radialGetNodeSize nodes n.id =
      ⟨n.measuredWidth.getD nodeWidth, n.measuredHeight.getD nodeHeight⟩ := by
    unfold radialGetNodeSize
    rw [h1]
  have hh : horizGetNodeSize (nodes.foldl (fun m x => mapSet m x.id x) []) n.id =
      ⟨n.measuredWidth.getD (n.dataWidth.getD nodeWidth),
       n.measuredHeight.getD (n.dataHeight.getD nodeHeight)⟩ := by
    unfold horizGetNodeSize
    rw [h2]
  refine ⟨hr, hh, ?_, ?_⟩
  · intro hm hd
    rw [hr, hh]
    constructor
    · cases hmw : n.measuredWidth with
      | some q => simpa using hm q hmw
      | none => simp [nodeWidth]
    · cases hmw : n.measuredWidth with
      | some q => simpa using hm q hmw
      | none =>
        cases hdw : n.dataWidth with
        | some q => simpa using hd q hdw
        | none => simp [nodeWidth]
  · intro hm hd
    rw [hr, hh]
    constructor
    · cases hmw : n.measuredHeight with
      | some q => simpa using hm q hmw
      | none => simp [nodeHeight]
    · cases hmw : n.measuredHeight with
      | some q => simpa using hm q hmw
      | none =>
        cases hdw : n.dataHeight with
        | some q => simpa using hd q hdw
        | none => simp [nodeHeight]

/-- Witness for the amended C8 at a node with measured size 600 × 50. -/
theorem getNodeSize_precedence_witness :
    radialGetNodeSize
        [{ mkNode "w" ⟨0, 0⟩ with
            measuredWidth := some 600, measuredHeight := some 50 }] "w" =
        ⟨600, 50⟩ ∧
      horizGetNodeSize
        (List.foldl (fun m x => mapSet m x.id x) []
          [{ mkNode "w" ⟨0, 0⟩ with
              measuredWidth := some 600, measuredHeight := some 50 }]) "w" =
        ⟨600, 50⟩ := by
  have h := getNodeSize_precedence
    [{ mkNode "w" ⟨0, 0⟩ with
        measuredWidth := some 600, measuredHeight := some 50 }]
    { mkNode "w" ⟨0, 0⟩ with
        measuredWidth := some 600, measuredHeight := some 50 }
    (by decide) (by decide)
  exact ⟨h.1, h.2.1⟩

/-! ### Claim C4 (corrected): edge handles after horizontal layout -/

/-- The string naming of a side. -/
def sideName : Side → String
  | Side.left => "left"
  | Side.right => "right"
  | Side.top => "top"
  | Side.bottom => "bottom"

/-- Claim C4 as stated: after horizontal layout, every output edge's
`sourceHandle` names the side of its source node's `sourcePosition` and
its `targetHandle` names the side of its target node's `targetPosition`,
for all nodes including the root. -/
def C4Statement : Prop :=
  ∀ (nodes : List GNode) (edges : List GEdge) (out : List GNode × List GEdge),
    horizontalLayout nodes edges = some out →
    ∀ e ∈ out.2, ∀ src ∈ out.1, src.id = e.source →
      (∀ s, src.sourcePosition = some s → e.sourceHandle = some (sideName s)) ∧
      (∀ tgt ∈ out.1, tgt.id = e.target →
        ∀ s, tgt.targetPosition = some s → e.targetHandle = some (sideName s))

/-- Counterexample to C4: a root with one left-side child. The root's
output `sourcePosition` is `right` (the root always gets
`{target: Left, source: Right}`), but its outgoing edge to the left child
gets `sourceHandle = "left"` (root edges follow the child's side, not the
root's anchor). -/
theorem horizontal_root_handle_counterexample : ¬C4Statement := by
  intro h
  have hout : horizontalLayout [mkNode "r" ⟨0, 0⟩, mkNode "a" ⟨0, 0⟩]
      [⟨"e1", "r", "a", some "left", none⟩] =
      some
        ([{ mkNode "r" ⟨675, 460⟩ with
              sourcePosition := some Side.right,
              targetPosition := some Side.left },
          { mkNode "a" ⟨325, 460⟩ with
              sourcePosition := some Side.left,
              targetPosition := some Side.right }],
         [⟨"e1", "r", "a", some "left", some "right"⟩]) := by decide
  have hc := h _ _ _ hout ⟨"e1", "r", "a", some "left", some "right"⟩
    (by decide)
    { mkNode "r" ⟨675, 460⟩ with
        sourcePosition := some Side.right, targetPosition := some Side.left }
    (by decide) rfl
  exact absurd (hc.1 Side.right rfl) (by decide)

/-- Amended C4: after horizontal layout, for every output edge whose
endpoints resolve to output nodes, the `targetHandle` is the side of the
target's `targetPosition`; for a non-root source, the `sourceHandle` is
the side of the source's `sourcePosition`; for the root, the
`sourceHandle` is `"left"` or `"right"` according to whether the target's
placed center x is left of the root anchor x (800), regardless of the
root's own `sourcePosition`. -/
theorem horizontal_edge_handles (nodes : List GNode) (edges : List GEdge)
    (out : List GNode × List GEdge)
    (h : horizontalLayout nodes edges = some out) (e' : GEdge)
    (he : e' ∈ out.2) (src tgt : GNode)
    (hsrc : out.1.find? (fun n => n.id == e'.source) = some src)
    (htgt : out.1.find? (fun n => n.id == e'.target) = some tgt) :
    e'.targetHandle =
        some (if tgt.targetPosition = some Side.left then "left" else "right") ∧
      (src.id ≠ horizRootId nodes edges →
        e'.sourceHandle =
          some (if src.sourcePosition = some Side.left then "left" else "right")) ∧
      (src.id = horizRootId nodes edges →
        e'.sourceHandle =
          some (if tgt.position.x +
              (horizGetNodeSize (horizNodeMap nodes) tgt.id).width / 2 < 800 then
            "left" else "right")) := by
  cases nodes with
  | nil =>
    have h' : some (([] : List GNode), edges) = some out := h
    rw [← Option.some_inj.mp h'] at hsrc
    simp at hsrc
  | cons n0 rest =>
    unfold horizontalLayout at h
    simp only [Option.bind_eq_bind', Option.bind_eq_some] at h
    obtain ⟨st, _hst, h⟩ := h
    simp only [Option.pure_def, Option.some_inj] at h
    subst h
    obtain ⟨e, _hemem, heq⟩ := List.mem_map.mp he
    subst heq
    set nm := horizNodeMap (n0 :: rest) with hnm
    set final := horizOrphanPass (n0 :: rest) st with hfinal
    set newNodes := (n0 :: rest).map (horizProject nm final.1 final.2) with hnew
    cases hfs : newNodes.find? (fun n => n.id == e.source) with
    | none =>
      simp only [horizProjectEdge, hfs] at hsrc
      exact Option.noConfusion hsrc
    | some s =>
      cases hft : newNodes.find? (fun n => n.id == e.target) with
      | none =>
        simp only [horizProjectEdge, hfs, hft] at htgt
        exact Option.noConfusion htgt
      | some t =>
        simp only [horizProjectEdge, hfs, hft] at hsrc htgt ⊢
        obtain rfl : s = src := Option.some_inj.mp hsrc
        obtain rfl : t = tgt := Option.some_inj.mp htgt
        refine ⟨rfl, ?_, ?_⟩
        · intro hne
          have hb : (s.id == horizRootId (n0 :: rest) edges) = false := by
            simpa using hne
          simp [hb]
        · intro heq2
          have hb : (s.id == horizRootId (n0 :: rest) edges) = true := by
            simpa using heq2
          simp only [hb, if_true]
          rw [hnew, List.find?_map] at hft
          obtain ⟨n, hn, hneq⟩ := Option.map_eq_some'.mp hft
          have hpred := List.find?_some hn
          have hnid : n.id = e.target := by
            simpa [horizProject] using hpred
          subst hneq
          rw [← hnid]
          simp only [horizProject]
          have hx : ((mapGet final.1 n.id).getD ⟨0, 0⟩).x -
              (horizGetNodeSize nm n.id).width / 2 +
              (horizGetNodeSize nm n.id).width / 2 =
              ((mapGet final.1 n.id).getD ⟨0, 0⟩).x := by ring
          simp only [hx]

/-- Witness for the amended C4: on the root-with-left-child graph, the
theorem yields the root edge's `sourceHandle = "left"` from the child's
placed side. -/
theorem horizontal_edge_handles_witness :
    (⟨"e1", "r", "a", some "left", some "right"⟩ : GEdge).sourceHandle =
      some "left" := by
  have h := horizontal_edge_handles
    [mkNode "r" ⟨0, 0⟩, mkNode "a" ⟨0, 0⟩]
    [⟨"e1", "r", "a", some "left", none⟩]
    ([{ mkNode "r" ⟨675, 460⟩ with
          sourcePosition := some Side.right,
          targetPosition := some Side.left },
      { mkNode "a" ⟨325, 460⟩ with
          sourcePosition := some Side.left,
          targetPosition := some Side.right }],
     [⟨"e1", "r", "a", some "left", some "right"⟩])
    (by decide)
    ⟨"e1", "r", "a", some "left", some "right"⟩ (by decide)
    { mkNode "r" ⟨675, 460⟩ with
        sourcePosition := some Side.right, targetPosition := some Side.left }
    { mkNode "a" ⟨325, 460⟩ with
        sourcePosition := some Side.left, targetPosition := some Side.right }
    (by decide) (by decide)
  have h3 := h.2.2 (by decide)
  have hcond : ({ mkNode "a" ⟨325, 460⟩ with
      sourcePosition := some Side.left,
      targetPosition := some Side.right } : GNode).position.x +
      (horizGetNodeSize
        (horizNodeMap [mkNode "r" ⟨0, 0⟩, mkNode "a" ⟨0, 0⟩])
        ({ mkNode "a" ⟨325, 460⟩ with
            sourcePosition := some Side.left,
            targetPosition := some Side.right } : GNode).id).width / 2 <
      800 := by decide
  rw [if_pos hcond] at h3

/-! ### Claim C7 (corrected): orphan fallback positions -/

theorem mapGet_mapSet_self {κ α : Type} [BEq κ] [LawfulBEq κ]
    (m : List (κ × α)) (k : κ) (v : α) : mapGet (mapSet m k v) k = some v := by
  induction m with
  | nil => simp [mapGet, mapSet, List.find?]
  | cons p rest ih =>
    by_cases h : p.1 == k
    · simp [mapSet, h, mapGet, List.find?]
    · simp only [mapSet, h, if_false, Bool.false_eq_true]
      simpa [mapGet, List.find?, h] using ih

theorem mapGet_mapSet_ne {κ α : Type} [BEq κ] [LawfulBEq κ]
    (m : List (κ × α)) (k k' : κ) (v : α) (h : k' ≠ k) :
    mapGet (mapSet m k v) k' = mapGet m k' := by
  have hkk : (k == k') = false := by
    simpa using fun hkk => h (eq_of_beq hkk).symm
  induction m with
  | nil => simp [mapGet, mapSet, List.find?, hkk]
  | cons p rest ih =>
    by_cases hp : p.1 == k
    · have hp' : (p.1 == k') = false := by
        have : p.1 = k := eq_of_beq hp
        subst this
        exact hkk
      simp [mapSet, hp, mapGet, List.find?, hkk, hp']
    · by_cases hq : p.1 == k'
      · simp [mapSet, hp, mapGet, List.find?, hq]
      · simp only [mapSet, hp, if_false, Bool.false_eq_true]
        simpa [mapGet, List.find?, hq] using ih

theorem horizOrphanPass_preserves (l : List GNode)
    (st : List (String × Pt) × List (String × Handles)) (k : String) (v : Pt)
    (h : mapGet st.1 k = some v) :
    mapGet (horizOrphanPass l st).1 k = some v := by
  induction l generalizing st with
  | nil => exact h
  | cons n tl ih =>
    unfold horizOrphanPass
    rw [List.foldl_cons]
    by_cases hn : (mapGet st.1 n.id).isNone
    · have hne : k ≠ n.id := by
        intro he
        rw [← he, h] at hn
        simp at hn
      rw [if_pos hn]
      exact ih _ (by simpa [mapGet_mapSet_ne _ _ _ _ hne] using h)
    · rw [if_neg hn]
      exact ih st h

theorem horizOrphanPass_sets (l : List GNode)
    (st : List (String × Pt) × List (String × Handles)) (k : String)
    (h1 : mapGet st.1 k = none) (h2 : k ∈ l.map (·.id)) :
    mapGet (horizOrphanPass l st).1 k = some ⟨1300, 500⟩ := by
  induction l generalizing st with
  | nil => simp at h2
  | cons n tl ih =>
    unfold horizOrphanPass
    rw [List.foldl_cons]
    by_cases hn : n.id = k
    · have hnone : (mapGet st.1 n.id).isNone := by rw [hn, h1]; rfl
      rw [if_pos hnone]
      refine horizOrphanPass_preserves tl _ k _ ?_
      rw [← hn]
      exact mapGet_mapSet_self _ _ _
    · have h2' : k ∈ tl.map (·.id) := by
        rcases List.mem_map.mp h2 with ⟨m, hm, hmk⟩
        rcases List.mem_cons.mp hm with rfl | hmtl
        · exact absurd hmk hn
        · exact List.mem_map.mpr ⟨m, hmtl, hmk⟩
      by_cases hnone : (mapGet st.1 n.id).isNone
      · rw [if_pos hnone]
        refine ih _ ?_ h2'
        rw [mapGet_mapSet_ne _ _ _ _ (Ne.symm hn)]
        exact h1
      · rw [if_neg hnone]
        exact ih st h1 h2'

/-- Strict disjointness of two boxes (top-left + size). -/
def boxDisjoint (b1 b2 : Bounds) : Prop :=
  b1.x + b1.width < b2.x ∨ b2.x + b2.width < b1.x ∨
    b1.y + b1.height < b2.y ∨ b2.y + b2.height < b1.y

instance (b1 b2 : Bounds) : Decidable (boxDisjoint b1 b2) := by
  unfold boxDisjoint; infer_instance

/-- The output bounding box the horizontal path gives a node. -/
def horizOutBox (nodes : List GNode) (n : GNode) : Bounds :=
  ⟨n.position.x, n.position.y,
   (horizGetNodeSize (horizNodeMap nodes) n.id).width,
   (horizGetNodeSize (horizNodeMap nodes) n.id).height⟩

/-- The output bounding box the radial path gives a node. -/
def radialOutBox (n : GNode) : Bounds :=
  ⟨n.position.x, n.position.y, n.measuredWidth.getD nodeWidth,
   n.measuredHeight.getD nodeHeight⟩

/-- Claim C7 as stated: after horizontal or radial layout, every node the
traversal did not place receives a fallback position whose bounding box is
disjoint from the box of every node the traversal placed. -/
def C7Statement : Prop :=
  (∀ (nodes : List GNode) (edges : List GEdge) (out : List GNode × List GEdge)
      (st : List (String × Pt) × List (String × Handles)),
    horizontalLayout nodes edges = some out →
    horizMainPositions nodes edges = some st →
    ∀ o ∈ out.1, mapGet st.1 o.id = none →
    ∀ p ∈ out.1, (mapGet st.1 p.id).isSome = true →
      boxDisjoint (horizOutBox nodes o) (horizOutBox nodes p)) ∧
  (∀ (tcos tsin : ℚ → ℚ) (at2 : ℚ → ℚ → ℚ) (pi : ℚ) (nodes : List GNode)
      (edges : List GEdge) (out : List GNode) (stOff : RState × ℚ),
    radialLayout tcos tsin at2 pi nodes edges = some out →
    radialTraversal tcos tsin at2 pi nodes edges = some stOff →
    ∀ o ∈ out, ¬stOff.1.visited.contains o.id = true →
    ∀ p ∈ out, stOff.1.visited.contains p.id = true →
      boxDisjoint (radialOutBox o) (radialOutBox p))

/-- Counterexample to C7: the chain `r → a → b` plus an isolated node `o`
(a second root never traversed, since only the first root is laid out).
`o` falls back to center (1300, 500), box [1175, 1425] × [460, 540],
which overlaps the placed node `b`'s box [1375, 1625] × [460, 540] — the
fallback lies inside the connected layout, not outside it. -/
theorem horizontal_orphan_inside_counterexample : ¬C7Statement := by
  intro h
  have hc := h.1
    [mkNode "r" ⟨0, 0⟩, mkNode "a" ⟨0, 0⟩, mkNode "b" ⟨0, 0⟩, mkNode "o" ⟨0, 0⟩]
    [⟨"e1", "r", "a", none, none⟩, ⟨"e2", "a", "b", none, none⟩]
    ([{ mkNode "r" ⟨675, 460⟩ with
          sourcePosition := some Side.right, targetPosition := some Side.left },
      { mkNode "a" ⟨1025, 460⟩ with
          sourcePosition := some Side.right, targetPosition := some Side.left },
      { mkNode "b" ⟨1375, 460⟩ with
          sourcePosition := some Side.right, targetPosition := some Side.left },
      { mkNode "o" ⟨1175, 460⟩ with
          sourcePosition := some Side.right, targetPosition := some Side.left }],
     [⟨"e1", "r", "a", some "right", some "left"⟩,
      ⟨"e2", "a", "b", some "right", some "left"⟩])
    ([("r", ⟨800, 500⟩), ("a", ⟨1150, 500⟩), ("b", ⟨1500, 500⟩)],
     [("r", ⟨Side.left, Side.right⟩), ("a", ⟨Side.left, Side.right⟩),
      ("b", ⟨Side.left, Side.right⟩)])
    (by decide) (by decide)
    { mkNode "o" ⟨1175, 460⟩ with
        sourcePosition := some Side.right, targetPosition := some Side.left }
    (by decide) (by decide)
    { mkNode "b" ⟨1375, 460⟩ with
        sourcePosition := some Side.right, targetPosition := some Side.left }
    (by decide) (by decide)
  exact absurd hc (by decide)

theorem radialOrphans_preserves (visited : List String) (l : List GNode)
    (pos : List (String × Pt)) (hnd : List (String × Handles)) (off : ℚ)
    (k : String) (v : Pt) (h : mapGet pos k = some v)
    (hnotin : k ∉ l.map (·.id)) :
    mapGet (radialOrphans l visited pos hnd off).1 k = some v := by
  induction l generalizing pos hnd off with
  | nil => exact h
  | cons n tl ih =>
    have hne : k ≠ n.id := fun he => hnotin (by simp [he])
    have hnotin' : k ∉ tl.map (·.id) := fun hm => hnotin (by simp [hm])
    unfold radialOrphans
    rw [List.foldl_cons]
    by_cases hv : !visited.contains n.id
    · rw [if_pos hv]
      exact ih _ _ _ (by rw [mapGet_mapSet_ne _ _ _ _ hne]; exact h) hnotin'
    · rw [if_neg hv]
      exact ih _ _ _ h hnotin'

theorem radialOrphans_cons (visited : List String) (n : GNode)
    (tl : List GNode) (pos : List (String × Pt))
    (hnd : List (String × Handles)) (off : ℚ) :
    radialOrphans (n :: tl) visited pos hnd off =
      if (!visited.contains n.id) = true then
        radialOrphans tl visited (mapSet pos n.id ⟨off + 600, 600⟩)
          (mapSet hnd n.id ⟨Side.left, Side.right⟩) (off + 400)
      else radialOrphans tl visited pos hnd off := by
  unfold radialOrphans
  rw [List.foldl_cons]
  by_cases hv : (!visited.contains n.id) = true
  · rw [if_pos hv, if_pos hv]
  · rw [if_neg hv, if_neg hv]

theorem radialOrphans_sets (visited : List String) :
    ∀ (l : List GNode), (l.map (·.id)).Nodup →
      ∀ (i : Nat) (hi : i < l.length) (pos : List (String × Pt))
        (hnd : List (String × Handles)) (off : ℚ),
        (!visited.contains (l.get ⟨i, hi⟩).id) = true →
        mapGet (radialOrphans l visited pos hnd off).1 (l.get ⟨i, hi⟩).id =
          some ⟨off +
            400 * (((l.take i).filter
              (fun m => !visited.contains m.id)).length : ℚ) + 600, 600⟩
  | [], _, i, hi => absurd hi (by simp)
  | n :: tl, hnodup, i, hi => by
    rw [List.map_cons, List.nodup_cons] at hnodup
    cases i with
    | zero =>
      intro pos hnd off hunvis
      rw [radialOrphans_cons, if_pos (by simpa using hunvis)]
      have hset : mapGet (mapSet pos n.id ⟨off + 600, 600⟩) n.id =
          some ⟨off + 600, 600⟩ := mapGet_mapSet_self _ _ _
      have hres := radialOrphans_preserves visited tl
        (mapSet pos n.id ⟨off + 600, 600⟩)
        (mapSet hnd n.id ⟨Side.left, Side.right⟩) (off + 400) n.id
        ⟨off + 600, 600⟩ hset (by simpa using hnodup.1)
      simpa using hres
    | succ j =>
      intro pos hnd off hunvis
      have hj : j < tl.length := by simpa using hi
      have hget : (n :: tl).get ⟨j + 1, hi⟩ = tl.get ⟨j, hj⟩ := rfl
      rw [hget] at hunvis ⊢
      by_cases hv : (!visited.contains n.id) = true
      · rw [radialOrphans_cons, if_pos hv]
        have h2 := radialOrphans_sets visited tl hnodup.2 j hj
          (mapSet pos n.id ⟨off + 600, 600⟩)
          (mapSet hnd n.id ⟨Side.left, Side.right⟩) (off + 400) hunvis
        have hv2 : ¬n.id ∈ visited := by simpa using hv
        have hfil : (((n :: tl).take (j + 1)).filter
            (fun m => !visited.contains m.id)).length =
            ((tl.take j).filter (fun m => !visited.contains m.id)).length + 1 := by
          simp [List.take_succ_cons, List.filter_cons, hv2]
        rw [h2, hfil]
        simp only [Option.some_inj, Pt.mk.injEq, and_true]
        push_cast
        ring
      · rw [radialOrphans_cons, if_neg hv]
        have h2 := radialOrphans_sets visited tl hnodup.2 j hj pos hnd off hunvis
        have hv2 : n.id ∈ visited := by simpa using hv
        have hfil : (((n :: tl).take (j + 1)).filter
            (fun m => !visited.contains m.id)).length =
            ((tl.take j).filter (fun m => !visited.contains m.id)).length := by
          simp [List.take_succ_cons, List.filter_cons, hv2]
        rw [h2, hfil]

/-- Amended C7: every node the traversal did not place still receives a
deterministic fallback position — the horizontal path puts every such
node's center at exactly (1300, 500); the radial path lines the unvisited
nodes up at y-center 600, the k-th at x-center
`currentOffset + 400·k + 600` — but that position is not guaranteed to
lie outside the bounding box of the placed nodes. -/
theorem layout_orphan_fallback :
    (∀ (nodes : List GNode) (edges : List GEdge)
        (out : List GNode × List GEdge)
        (st : List (String × Pt) × List (String × Handles)) (i : Nat)
        (hi : i < nodes.length) (hi' : i < out.1.length),
      horizontalLayout nodes edges = some out →
      horizMainPositions nodes edges = some st →
      mapGet st.1 (nodes.get ⟨i, hi⟩).id = none →
      (out.1.get ⟨i, hi'⟩).position =
        ⟨1300 -
          (horizGetNodeSize (horizNodeMap nodes) (nodes.get ⟨i, hi⟩).id).width / 2,
         500 -
          (horizGetNodeSize (horizNodeMap nodes)
            (nodes.get ⟨i, hi⟩).id).height / 2⟩) ∧
    (∀ (tcos tsin : ℚ → ℚ) (at2 : ℚ → ℚ → ℚ) (pi : ℚ) (nodes : List GNode)
        (edges : List GEdge) (out : List GNode) (stOff : RState × ℚ) (i : Nat)
        (hi : i < nodes.length) (hi' : i < out.length),
      radialLayout tcos tsin at2 pi nodes edges = some out →
      radialTraversal tcos tsin at2 pi nodes edges = some stOff →
      (nodes.map (·.id)).Nodup →
      (!stOff.1.visited.contains (nodes.get ⟨i, hi⟩).id) = true →
      (out.get ⟨i, hi'⟩).position =
        ⟨stOff.2 +
            400 * (((nodes.take i).filter
              (fun m => !stOff.1.visited.contains m.id)).length : ℚ) + 600 -
            (nodes.get ⟨i, hi⟩).measuredWidth.getD nodeWidth / 2,
         600 - (nodes.get ⟨i, hi⟩).measuredHeight.getD nodeHeight / 2⟩) := by
  constructor
  · intro nodes edges out st i hi hi' h hst hmiss
    cases nodes with
    | nil => exact absurd hi (by simp)
    | cons n0 rest =>
      unfold horizontalLayout at h
      simp only [Option.bind_eq_bind', Option.bind_eq_some] at h
      obtain ⟨st', hst', h⟩ := h
      obtain rfl : st = st' := Option.some_inj.mp (hst.symm.trans hst')
      simp only [Option.pure_def, Option.some_inj] at h
      subst h
      simp only [List.get_eq_getElem] at hmiss ⊢
      simp only [List.getElem_map]
      have hmem : (n0 :: rest)[i].id ∈ (n0 :: rest).map (·.id) :=
        List.mem_map.mpr ⟨(n0 :: rest)[i], List.getElem_mem hi, rfl⟩
      have hset := horizOrphanPass_sets (n0 :: rest) st
        (n0 :: rest)[i].id hmiss hmem
      simp [horizProject, hset]
  · intro tcos tsin at2 pi nodes edges out stOff i hi hi' h hst hnodup hunvis
    cases nodes with
    | nil => exact absurd hi (by simp)
    | cons n0 rest =>
      unfold radialLayout at h
      rw [if_neg (by simp)] at h
      simp only [Option.bind_eq_bind', Option.bind_eq_some] at h
      obtain ⟨stOff', hst', h⟩ := h
      obtain rfl : stOff = stOff' := Option.some_inj.mp (hst.symm.trans hst')
      simp only [Option.pure_def, Option.some_inj] at h
      subst h
      have hset := radialOrphans_sets stOff.1.visited (n0 :: rest) hnodup i hi
        (radialNudge (n0 :: rest) edges stOff.1.positions) stOff.1.handles
        stOff.2 hunvis
      simp only [List.get_eq_getElem] at hset ⊢
      unfold radialProject
      simp only [List.getElem_map]
      simp [hset]

/-- Witness for the amended C7: on the `r → a → b` + isolated `o` graph,
the orphan `o` (index 3) is output with top-left (1175, 460), i.e. center
(1300, 500) shifted by half the default size. -/
theorem layout_orphan_fallback_witness :
    (([{ mkNode "r" ⟨675, 460⟩ with
          sourcePosition := some Side.right, targetPosition := some Side.left },
       { mkNode "a" ⟨1025, 460⟩ with
          sourcePosition := some Side.right, targetPosition := some Side.left },
       { mkNode "b" ⟨1375, 460⟩ with
          sourcePosition := some Side.right, targetPosition := some Side.left },
       { mkNode "o" ⟨1175, 460⟩ with
          sourcePosition := some Side.right,
          targetPosition := some Side.left }] : List GNode).get
        ⟨3, by decide⟩).position = ⟨1175, 460⟩ := by
  have h := layout_orphan_fallback.1
    [mkNode "r" ⟨0, 0⟩, mkNode "a" ⟨0, 0⟩, mkNode "b" ⟨0, 0⟩, mkNode "o" ⟨0, 0⟩]
    [⟨"e1", "r", "a", none, none⟩, ⟨"e2", "a", "b", none, none⟩]
    ([{ mkNode "r" ⟨675, 460⟩ with
          sourcePosition := some Side.right, targetPosition := some Side.left },
      { mkNode "a" ⟨1025, 460⟩ with
          sourcePosition := some Side.right, targetPosition := some Side.left },
      { mkNode "b" ⟨1375, 460⟩ with
          sourcePosition := some Side.right, targetPosition := some Side.left },
      { mkNode "o" ⟨1175, 460⟩ with
          sourcePosition := some Side.right, targetPosition := some Side.left }],
     [⟨"e1", "r", "a", some "right", some "left"⟩,
      ⟨"e2", "a", "b", some "right", some "left"⟩])
    ([("r", ⟨800, 500⟩), ("a", ⟨1150, 500⟩), ("b", ⟨1500, 500⟩)],
     [("r", ⟨Side.left, Side.right⟩), ("a", ⟨Side.left, Side.right⟩),
      ("b", ⟨Side.left, Side.right⟩)])
    3 (by decide) (by decide) (by decide) (by decide) (by decide)
  rw [h]
  decide

/-! ### Claim C6 (confirmed): incremental placement -/

theorem fnopFold_spec (sqrtFn : ℚ → ℚ) (initialX initialY nodeW nodeH : ℚ)
    (existingNodes : List GNode) :
    ∀ (ys : List ℚ) (acc : ℚ × ℚ × Option ℚ),
      acc.1 = initialX →
      (∀ m, acc.2.2 = some m →
        fnopCheckCandidate sqrtFn nodeW nodeH existingNodes initialX acc.2.1 =
          some m) →
      (ys.foldl (fnopStep sqrtFn initialX initialY nodeW nodeH existingNodes)
          acc).1 = initialX ∧
      (∀ m,
        (ys.foldl (fnopStep sqrtFn initialX initialY nodeW nodeH existingNodes)
          acc).2.2 = some m →
        fnopCheckCandidate sqrtFn nodeW nodeH existingNodes initialX
          (ys.foldl (fnopStep sqrtFn initialX initialY nodeW nodeH existingNodes)
            acc).2.1 = some m) ∧
      (∀ m0, acc.2.2 = some m0 →
        ∃ m,
          (ys.foldl (fnopStep sqrtFn initialX initialY nodeW nodeH existingNodes)
            acc).2.2 = some m ∧ m ≤ m0) ∧
      (∀ y' ∈ ys, ∀ d',
        fnopCheckCandidate sqrtFn nodeW nodeH existingNodes initialX
          (initialY + y') = some d' →
        ∃ m,
          (ys.foldl (fnopStep sqrtFn initialX initialY nodeW nodeH existingNodes)
            acc).2.2 = some m ∧ m ≤ d')
  | [], acc, hx, hinv => by
    refine ⟨hx, hinv, fun m0 h0 => ⟨m0, h0, le_refl m0⟩, ?_⟩
    intro y' hy'
    exact absurd hy' (by simp)
  | y :: ys, acc, hx, hinv => by
    have hstep1 :
        (fnopStep sqrtFn initialX initialY nodeW nodeH existingNodes acc y).1 =
          initialX := by
      simp only [fnopStep]
      cases hc : fnopCheckCandidate sqrtFn nodeW nodeH existingNodes initialX
          (initialY + y) with
      | none => exact hx
      | some td =>
        dsimp only
        by_cases hcond : (match acc.2.2 with
            | some m => decide (td < m)
            | none => true) = true
        · rw [if_pos hcond]
        · rw [if_neg hcond]; exact hx
    have hstep2 : ∀ m,
        (fnopStep sqrtFn initialX initialY nodeW nodeH existingNodes acc y).2.2 =
          some m →
        fnopCheckCandidate sqrtFn nodeW nodeH existingNodes initialX
          (fnopStep sqrtFn initialX initialY nodeW nodeH existingNodes acc
            y).2.1 = some m := by
      intro m hm
      simp only [fnopStep] at hm ⊢
      cases hc : fnopCheckCandidate sqrtFn nodeW nodeH existingNodes initialX
          (initialY + y) with
      | none =>
        rw [hc] at hm
        exact hinv m hm
      | some td =>
        rw [hc] at hm
        dsimp only at hm ⊢
        by_cases hcond : (match acc.2.2 with
            | some m => decide (td < m)
            | none => true) = true
        · rw [if_pos hcond] at hm ⊢
          obtain rfl : td = m := by simpa using hm
          exact hc
        · rw [if_neg hcond] at hm ⊢
          exact hinv m hm
    have ih := fnopFold_spec sqrtFn initialX initialY nodeW nodeH existingNodes
      ys (fnopStep sqrtFn initialX initialY nodeW nodeH existingNodes acc y)
      hstep1 hstep2
    rw [List.foldl_cons]
    refine ⟨ih.1, ih.2.1, ?_, ?_⟩
    · intro m0 h0
      have hcases : ∃ td,
          (fnopStep sqrtFn initialX initialY nodeW nodeH existingNodes acc
            y).2.2 = some td ∧ td ≤ m0 := by
        simp only [fnopStep]
        cases hc : fnopCheckCandidate sqrtFn nodeW nodeH existingNodes initialX
            (initialY + y) with
        | none => exact ⟨m0, h0, le_refl m0⟩
        | some td =>
          dsimp only
          by_cases hcond : (match acc.2.2 with
              | some m => decide (td < m)
              | none => true) = true
          · rw [if_pos hcond]
            refine ⟨td, rfl, ?_⟩
            rw [h0] at hcond
            exact le_of_lt (by simpa using hcond)
          · rw [if_neg hcond]
            exact ⟨m0, h0, le_refl m0⟩
      obtain ⟨td, htd, htdle⟩ := hcases
      obtain ⟨m, hm, hmle⟩ := ih.2.2.1 td htd
      exact ⟨m, hm, le_trans hmle htdle⟩
    · intro y' hy' d' hd'
      rcases List.mem_cons.mp hy' with rfl | hmem
      · have hcases : ∃ td,
            (fnopStep sqrtFn initialX initialY nodeW nodeH existingNodes acc)
              y'|>.2.2 = some td ∧ td ≤ d' := by
          simp only [fnopStep, hd']
          cases h0 : acc.2.2 with
          | none => rw [if_pos rfl]; exact ⟨d', rfl, le_refl d'⟩
          | some m0 =>
            by_cases hlt : d' < m0
            · rw [if_pos (by simpa using hlt)]
              exact ⟨d', rfl, le_refl d'⟩
            · rw [if_neg (by simpa using hlt)]
              exact ⟨m0, h0, le_of_not_lt hlt⟩
        obtain ⟨td, htd, htdle⟩ := hcases
        obtain ⟨m, hm, hmle⟩ := ih.2.2.1 td htd
        exact ⟨m, hm, le_trans hmle htdle⟩
      · exact ih.2.2.2 y' hmem d' hd'

/-- Claim C6: if some candidate y of the ±200-by-50 vertical scan puts the
padded box in overlap with no existing node, then
`findNonOverlappingPosition` returns x = initialX together with an
overlap-free candidate y whose summed center-to-center distance to the
existing nodes is minimal among all overlap-free candidates (the function
is total, so it always returns some position). Quantifying over `sqrtFn`
covers the real square root used for the distances. -/
theorem findNonOverlappingPosition_spec (sqrtFn : ℚ → ℚ)
    (initialX initialY nodeW nodeH : ℚ) (existingNodes : List GNode)
    (dirRight : Bool) (y0 : ℚ) (hy : y0 ∈ fnopYOffsets)
    (hclear : (fnopCheckCandidate sqrtFn nodeW nodeH existingNodes initialX
      (initialY + y0)).isSome = true) :
    (findNonOverlappingPosition sqrtFn initialX initialY nodeW nodeH
      existingNodes dirRight).x = initialX ∧
    ∃ d,
      fnopCheckCandidate sqrtFn nodeW nodeH existingNodes initialX
        (findNonOverlappingPosition sqrtFn initialX initialY nodeW nodeH
          existingNodes dirRight).y = some d ∧
      ∀ y' ∈ fnopYOffsets, ∀ d',
        fnopCheckCandidate sqrtFn nodeW nodeH existingNodes initialX
          (initialY + y') = some d' → d ≤ d' := by
  obtain ⟨d0, hd0⟩ := Option.isSome_iff_exists.mp hclear
  have hfold := fnopFold_spec sqrtFn initialX initialY nodeW nodeH existingNodes
    fnopYOffsets (initialX, initialY, none) rfl (by intro m hm; cases hm)
  obtain ⟨m, hm, _⟩ := hfold.2.2.2 y0 hy d0 hd0
  simp only [findNonOverlappingPosition, fnopScanY]
  rw [hm]
  refine ⟨hfold.1, m, hfold.2.1 m hm, ?_⟩
  intro y' hy' d' hd'
  obtain ⟨m', hm', hle'⟩ := hfold.2.2.2 y' hy' d' hd'
  rw [hm] at hm'
  obtain rfl : m' = m := Option.some_inj.mp hm'.symm
  exact hle'

/-- Witness for C6: one existing 200 × 100 node at (100, 200); the
candidate y offset -150 is overlap-free, and the function returns
(100, 50). -/
theorem findNonOverlappingPosition_spec_witness :
    (findNonOverlappingPosition (fun q => q) 100 200 200 100
      [{ mkNode "x" ⟨100, 200⟩ with
          measuredWidth := some 200, measuredHeight := some 100 }] true).x =
      100 ∧
    ∃ d,
      fnopCheckCandidate (fun q => q) 200 100
        [{ mkNode "x" ⟨100, 200⟩ with
            measuredWidth := some 200, measuredHeight := some 100 }] 100
        (findNonOverlappingPosition (fun q => q) 100 200 200 100
          [{ mkNode "x" ⟨100, 200⟩ with
              measuredWidth := some 200, measuredHeight := some 100 }] true).y =
        some d ∧
      ∀ y' ∈ fnopYOffsets, ∀ d',
        fnopCheckCandidate (fun q => q) 200 100
          [{ mkNode "x" ⟨100, 200⟩ with
              measuredWidth := some 200, measuredHeight := some 100 }] 100
          (200 + y') = some d' → d ≤ d' :=
  findNonOverlappingPosition_spec (fun q => q) 100 200 200 100
    [{ mkNode "x" ⟨100, 200⟩ with
        measuredWidth := some 200, measuredHeight := some 100 }] true (-150)
    (by decide) (by decide)

/-! ### Claim C5: radial parent/child separation -/

/-- Squared Euclidean distance between two points. -/
def distSq (p q : Pt) : ℚ := (p.x - q.x) ^ 2 + (p.y - q.y) ^ 2

/-- Claim C5 as stated: for any trigonometry satisfying the Pythagorean
identity, after the full radial pipeline (per-root traversal, per-edge
nudge pass, orphan pass), every edge whose endpoints were both visited by
the root traversal has center distance at least
`parentHalfDiagonal + childHalfDiagonal + 80`. Stored positions are
centers (the projection to top-left happens only in `radialProject`), and
the distance bound is stated on squares, guarded by `0 ≤ bound` so that
it is equivalent to the claim about distances. -/
def C5Statement : Prop :=
  ∀ (tcos tsin : ℚ → ℚ) (at2 : ℚ → ℚ → ℚ) (pi : ℚ),
    (∀ a, tcos a ^ 2 + tsin a ^ 2 = 1) →
    ∀ (nodes : List GNode) (edges : List GEdge) (st : RState) (off : ℚ),
      radialTraversal tcos tsin at2 pi nodes edges = some (st, off) →
      ∀ e ∈ edges,
        st.visited.contains e.source = true →
        st.visited.contains e.target = true →
        ∀ pp cp : Pt,
          mapGet (radialOrphans nodes st.visited
              (radialNudge nodes edges st.positions) st.handles off).1
            e.source = some pp →
          mapGet (radialOrphans nodes st.visited
              (radialNudge nodes edges st.positions) st.handles off).1
            e.target = some cp →
          0 ≤ halfDiagonal (radialGetNodeSize nodes e.source) +
              halfDiagonal (radialGetNodeSize nodes e.target) + 80 →
          (halfDiagonal (radialGetNodeSize nodes e.source) +
              halfDiagonal (radialGetNodeSize nodes e.target) + 80) ^ 2 ≤
            distSq pp cp

/-- Fake Pythagorean trigonometry for the C5 counterexample:
cos ≡ 3/5, sin ≡ 4/5 (so cos² + sin² = 1), atan2 ≡ 0. -/
def cex5cos : ℚ → ℚ := fun _ => 3/5

def cex5sin : ℚ → ℚ := fun _ => 4/5

def cex5at2 : ℚ → ℚ → ℚ := fun _ _ => 0

/-- C5 counterexample graph: a chain r → a → b with large boxes, the
edge (a, b) listed before (r, a). -/
def cex5nodes : List GNode :=
  [{ mkNode "r" ⟨0, 0⟩ with
      measuredWidth := some 600, measuredHeight := some 600 },
   { mkNode "a" ⟨0, 0⟩ with
      measuredWidth := some 600, measuredHeight := some 600 },
   { mkNode "b" ⟨0, 0⟩ with
      measuredWidth := some 100, measuredHeight := some 700 }]

def cex5edges : List GEdge :=
  [⟨"e2", "a", "b", none, none⟩, ⟨"e1", "r", "a", none, none⟩]

/-- The traversal state `radialTraversal` computes on the C5
counterexample graph: root r at (600, 600), a on its ring of radius 680,
b on a's ring of radius 730. -/
def cex5st : RState :=
  ⟨[("r", ⟨600, 600⟩), ("a", ⟨1008, 1144⟩), ("b", ⟨1446, 1728⟩)],
   [("a", ⟨Side.left, Side.right⟩), ("b", ⟨Side.left, Side.right⟩),
    ("r", ⟨Side.left, Side.right⟩)],
   ["r", "a", "b"]⟩

/-- Counterexample to C5: on the chain r → a → b with edge (a, b)
processed before (r, a), the nudge pass moves the parent a from
x = 1008 to x = 1248 after its child b was already placed at
(1446, 1728); the resulting center distance between a and b satisfies
dist² = 198² + 584² = 380260 < 730² = (300 + 350 + 80)², violating the
claimed separation for the visited edge (a, b). -/
theorem radial_separation_counterexample : ¬C5Statement := by
  intro h
  have hc := h cex5cos cex5sin cex5at2 (16/5)
    (fun a => by norm_num [cex5cos, cex5sin])
    cex5nodes cex5edges cex5st 1200 (by decide)
    ⟨"e2", "a", "b", none, none⟩ (by decide) (by decide) (by decide)
    ⟨1248, 1144⟩ ⟨1446, 1728⟩ (by decide) (by decide) (by decide)
  exact absurd hc (by decide)

/-- The running maximum of the `maxChildHalfDiagonal` fold never drops
below its initial value. -/
theorem mchdFold_le_init (nodes : List GNode) (kids : List String) (m : ℚ) :
    m ≤ kids.foldl
      (fun m childId =>
        let childHalf := halfDiagonal (radialGetNodeSize nodes childId)
        if childHalf > m then childHalf else m) m := by
  induction kids generalizing m with
  | nil => exact le_refl m
  | cons c rest ih =>
    rw [List.foldl_cons]
    refine le_trans ?_ (ih _)
    dsimp only
    split
    · exact le_of_lt (by assumption)
    · exact le_refl m

/-- Every listed child bounds the `maxChildHalfDiagonal` fold from
below, for any initial value. -/
theorem le_mchdFold (nodes : List GNode) (childId : String)
    (kids : List String) (m : ℚ) :
    childId ∈ kids →
    halfDiagonal (radialGetNodeSize nodes childId) ≤
      kids.foldl
        (fun m childId =>
          let childHalf := halfDiagonal (radialGetNodeSize nodes childId)
          if childHalf > m then childHalf else m) m := by
  induction kids generalizing m with
  | nil => intro hmem; cases hmem
  | cons c rest ih =>
    intro hmem
    rw [List.foldl_cons]
    rcases List.mem_cons.mp hmem with rfl | hmem2
    · refine le_trans ?_ (mchdFold_le_init nodes rest _)
      dsimp only
      split
      · exact le_refl _
      · exact le_of_not_lt (by assumption)
    · exact ih _ hmem2

/-- A child's half-diagonal is at most `maxChildHalfDiagonal` of any
child list containing it. -/
theorem le_maxChildHalfDiagonal (nodes : List GNode) (childId : String)
    (kids : List String) (hmem : childId ∈ kids) :
    halfDiagonal (radialGetNodeSize nodes childId) ≤
      maxChildHalfDiagonal nodes kids := by
  unfold maxChildHalfDiagonal
  exact le_mchdFold nodes childId kids 0 hmem

/-- Claim C5, amended: the separation holds at placement time. The ring
radius `positionChildren` uses for a parent's children is at least
`parentHalfDiagonal + childHalfDiagonal + 80` for every child in the
list, and a child placed by `radialPlacePoint` on that ring sits at
squared center distance exactly `radius²` from the parent, for any
trigonometry satisfying the Pythagorean identity. The claimed bound can
then be broken only by the later per-edge nudge pass, which moves a
parent after its children are placed (see the counterexample). -/
theorem radial_placement_separation (tcos tsin : ℚ → ℚ)
    (hpyth : ∀ a, tcos a ^ 2 + tsin a ^ 2 = 1)
    (nodes : List GNode) (levels : List (String × ℤ)) (parentId : String)
    (kids : List String) (childId : String) (hmem : childId ∈ kids)
    (pp : Pt) (angle : ℚ) :
    halfDiagonal (radialGetNodeSize nodes parentId) +
        halfDiagonal (radialGetNodeSize nodes childId) + 80 ≤
      radialChildRadius nodes levels parentId kids ∧
    distSq
        (radialPlacePoint tcos tsin pp angle
          (radialChildRadius nodes levels parentId kids)) pp =
      radialChildRadius nodes levels parentId kids ^ 2 := by
  have hmax := le_maxChildHalfDiagonal nodes childId kids hmem
  constructor
  · unfold radialChildRadius
    dsimp only
    split
    · linarith
    · have hge := le_of_not_lt (by assumption)
      linarith
  · unfold distSq radialPlacePoint
    dsimp only
    linear_combination
      radialChildRadius nodes levels parentId kids ^ 2 * hpyth angle

/-- Witness for the amended C5 theorem: parent r (600 × 600) with child
list ["a"] (600 × 600), empty level map, parent center (600, 600), angle
16/5; the radius is 680 ≥ 300 + 300 + 80 and the placed child sits at
squared distance 680². -/
theorem radial_placement_separation_witness :
    halfDiagonal (radialGetNodeSize cex5nodes "r") +
        halfDiagonal (radialGetNodeSize cex5nodes "a") + 80 ≤
      radialChildRadius cex5nodes [] "r" ["a"] ∧
    distSq
        (radialPlacePoint cex5cos cex5sin ⟨600, 600⟩ (16/5)
          (radialChildRadius cex5nodes [] "r" ["a"])) ⟨600, 600⟩ =
      radialChildRadius cex5nodes [] "r" ["a"] ^ 2 :=
  radial_placement_separation cex5cos cex5sin
    (fun a => by norm_num [cex5cos, cex5sin]) cex5nodes [] "r" ["a"] "a"
    (by decide) ⟨600, 600⟩ (16/5)

/-- Claim C2: `getLayoutedElements` is deterministic — the source reads
no ambient state (no randomness, clock or shared mutable state survives
between calls; JS `Map` iteration and `sort` are deterministic), so the
embedding is a pure function and two calls on identical inputs (same
nodes, edges and direction, with the same ambient trigonometry and dagre
assignment) return identical outputs. -/
theorem getLayoutedElements_deterministic (tcos tsin : ℚ → ℚ)
    (at2 : ℚ → ℚ → ℚ) (pi : ℚ) (dagrePos : String → Pt)
    (nodes1 nodes2 : List GNode) (edges1 edges2 : List GEdge)
    (dir1 dir2 : LayoutDirection) (hn : nodes1 = nodes2)
    (he : edges1 = edges2) (hd : dir1 = dir2) :
    getLayoutedElements tcos tsin at2 pi dagrePos nodes1 edges1 dir1 =
      getLayoutedElements tcos tsin at2 pi dagrePos nodes2 edges2 dir2 := by
  rw [hn, he, hd]

/-- Witness for C2: two identical concrete calls agree. -/
theorem getLayoutedElements_deterministic_witness :
    getLayoutedElements (fun _ => 0) (fun _ => 0) (fun _ _ => 0) 0
        (fun _ => ⟨0, 0⟩) [mkNode "a" ⟨0, 0⟩] [] LayoutDirection.LR =
      getLayoutedElements (fun _ => 0) (fun _ => 0) (fun _ _ => 0) 0
        (fun _ => ⟨0, 0⟩) [mkNode "a" ⟨0, 0⟩] [] LayoutDirection.LR :=
  getLayoutedElements_deterministic (fun _ => 0) (fun _ => 0) (fun _ _ => 0) 0
    (fun _ => ⟨0, 0⟩) [mkNode "a" ⟨0, 0⟩] [mkNode "a" ⟨0, 0⟩] [] []
    LayoutDirection.LR LayoutDirection.LR rfl rfl rfl
